import Mathlib

/-!
Verification of the wow-profile-copy configuration migration tool
(src/wow-profile-copy.go) against its design specification.

The program is modelled by a shallow embedding:

* a filesystem is a finite structure `FS` holding the set of directories
  (`dirs`), the files with their byte contents (`files`, contents as
  `List Char`), and a set of paths on which writes and deletions fail
  (`readOnly`, modelling environmental I/O failures such as permission
  errors; reads of existing files always succeed, as on a local disk);
* a path is its list of components relative to the filesystem root
  (`filepath.Join a b` becomes list append);
* `log.Fatal` / `log.Fatalln` abort the run: the migration engine returns
  an `Outcome` that is either `.ok` or `.fatal`, both carrying the
  filesystem state reached so far, and `.fatal` short-circuits the rest;
* `os.ReadDir` (`FS.readDir`) fails exactly when the directory is absent;
  `os.Open`+`io.Copy` of a missing file fails; `os.Create`/`os.WriteFile`
  fail on a `readOnly` path or on a path that is a directory;
  `os.Remove` of an absent path yields an error whose text contains
  "no such file or directory" (the Unix error text the Go code tests for);
* Go's `bytes.ReplaceAll` becomes `replaceAll` (leftmost, non-overlapping
  literal replacement); the regular expression `.*\.lua$` used with
  `MatchString` on a file name accepts exactly the names ending in ".lua",
  and `strings.HasSuffix(path, ".lua")` on a joined path holds exactly when
  the final component ends in ".lua" (components contain no separator);
* `filepath.WalkDir(root, f)` visits every directory and file below `root`;
  the claims proved here do not depend on the lexical visit order, and the
  substitution pass neither creates nor deletes files, so the walk is
  modelled by the list of existing paths below `root` taken in the order
  they occur in the `FS` structure.

Interactive prompt rendering (pterm) is presentation glue, out of scope per
the specification; `selectWtfOutcome` models only the decision logic of
`selectWtf` around the enumeration result (lines 150-161 of the source).
-/

abbrev FsPath := List String

/-- One entry returned by a directory listing, as in `os.ReadDir`. -/
structure DirEntry where
  name : String
  isDir : Bool
deriving DecidableEq, Repr

/-- The `Wtf` triple of the Go source: account, server, character. -/
structure Wtf where
  account : String
  server : String
  character : String
deriving DecidableEq, Repr

/-- The `CopyTarget` of the Go source: a `Wtf` triple plus a version folder. -/
structure CopyTarget where
  wtf : Wtf
  version : String
deriving DecidableEq, Repr

/-- Filesystem model: existing directories, files with contents, and the
set of paths on which writes/deletions fail with a permission error. -/
structure FS where
  dirs : List FsPath
  files : List (FsPath × List Char)
  readOnly : List FsPath
deriving DecidableEq

def msgReadDirFail : String := "ReadDir failed"

def msgReadFileFail : String := "ReadFile failed"

def msgOpenNoEnt : String := "open: no such file or directory"

def msgIsDirectory : String := "is a directory"

def msgPermissionDenied : String := "remove: permission denied"

def msgRemoveNoEnt : String := "remove: no such file or directory"

def msgNoSuchFile : String := "no such file or directory"

def savedVariablesName : String := "SavedVariables"

def luaExt : String := ".lua"

def FS.readFile (fs : FS) (p : FsPath) : Option (List Char) :=
  (fs.files.find? (fun e => e.1 == p)).map (fun e => e.2)

def FS.hasFile (fs : FS) (p : FsPath) : Bool :=
  (fs.readFile p).isSome

/-- Total overwrite of a file: replaces the contents in place when the file
exists, otherwise appends a new file entry. -/
def FS.writeFile (fs : FS) (p : FsPath) (c : List Char) : FS :=
  if fs.hasFile p then
    { fs with files := fs.files.map (fun e => if e.1 == p then (p, c) else e) }
  else
    { fs with files := fs.files ++ [(p, c)] }

/-- Fallible write, as `os.Create` + `io.Copy` or `os.WriteFile`: fails on a
directory path or a read-only path, otherwise overwrites. -/
def FS.writeFileE (fs : FS) (p : FsPath) (c : List Char) : Except String FS :=
  if fs.dirs.contains p then .error msgIsDirectory
  else if fs.readOnly.contains p then .error msgPermissionDenied
  else .ok (fs.writeFile p c)

def FS.eraseFile (fs : FS) (p : FsPath) : FS :=
  { fs with files := fs.files.filter (fun e => !(e.1 == p)) }

/-- Model of `os.Remove` restricted to file paths: deleting an absent path
reports the Unix "no such file or directory" error text. -/
def FS.remove (fs : FS) (p : FsPath) : Except String FS :=
  match fs.readFile p with
  | none => .error msgRemoveNoEnt
  | some _ =>
    if fs.readOnly.contains p then .error msgPermissionDenied
    else .ok (fs.eraseFile p)

/-- When `d` is a direct child of directory `p`, its final name. -/
def childName (p d : FsPath) : Option String :=
  if p.isPrefixOf d then
    match d.drop p.length with
    | [n] => some n
    | _ => none
  else none

/-- Model of `os.ReadDir`: fails when the directory does not exist, else
lists the direct children (subdirectories and files) with their kind. -/
def FS.readDir (fs : FS) (p : FsPath) : Option (List DirEntry) :=
  if fs.dirs.contains p then
    some ((fs.dirs.filterMap (fun d => (childName p d).map (fun n => ⟨n, true⟩))) ++
          (fs.files.filterMap (fun e => (childName p e.1).map (fun n => ⟨n, false⟩))))
  else none

/-- Leftmost non-overlapping literal replacement, as `bytes.ReplaceAll` for a
non-empty pattern (every pattern built by the program contains a hyphen and
is non-empty).  Structural fuel recursion; `s.length` fuel suffices since
every step consumes at least one character. -/
def replaceAllFuel (pat rep : List Char) : Nat → List Char → List Char
  | 0, s => s
  | _ + 1, [] => []
  | fuel + 1, c :: rest =>
    if pat.isPrefixOf (c :: rest) && !pat.isEmpty then
      rep ++ replaceAllFuel pat rep fuel ((c :: rest).drop pat.length)
    else
      c :: replaceAllFuel pat rep fuel rest

def replaceAll (pat rep s : List Char) : List Char :=
  replaceAllFuel pat rep s.length s

set_option linter.unusedVariables false in
/-- The identity substitution applied to one file's originally-read bytes,
mirroring lines 483-486 of the source exactly: each of the three
`bytes.ReplaceAll` calls takes `data` (the original bytes) as its first
argument and each re-binds `updated`, so only the third call's result is
written; the third call replaces the source's "server - character" text with
the destination's server and the destination's *account*. -/
def substituteLua (srcWtf dstWtf : Wtf) (data : List Char) : List Char :=
  let updated := replaceAll (srcWtf.character ++ "-" ++ srcWtf.server).data
                   (dstWtf.character ++ "-" ++ dstWtf.server).data data
  let updated := replaceAll (srcWtf.character ++ " - " ++ srcWtf.server).data
                   (dstWtf.character ++ " - " ++ dstWtf.server).data data
  let updated := replaceAll (srcWtf.server ++ " - " ++ srcWtf.character).data
                   (dstWtf.server ++ " - " ++ dstWtf.account).data data
  updated

/-- Result of a run (or of one phase): the filesystem reached, tagged with
whether a `log.Fatal` abort happened. -/
inductive Outcome where
  | ok : FS → Outcome
  | fatal : String → FS → Outcome
deriving DecidableEq

/-- Sequencing of phases: a fatal abort skips everything that follows. -/
def Outcome.andThen : Outcome → (FS → Outcome) → Outcome
  | .ok fs, f => f fs
  | .fatal m fs, _ => .fatal m fs

/-- The filesystem state carried by an outcome. -/
def Outcome.fs : Outcome → FS
  | .ok fs => fs
  | .fatal _ fs => fs

/-- Model of the `copyFile` helper (lines 319-334): open the source file
(failing when absent), create the destination and copy the bytes. -/
def copyFile (fs : FS) (src dst : FsPath) : Except String FS :=
  match fs.readFile src with
  | none => .error msgOpenNoEnt
  | some data => fs.writeFileE dst data

/-- The copy loops of lines 402-410 and 421-429: copy each named file from
`srcBase` to `dstBase`, `log.Fatal` on any error. -/
def copyLoop (srcBase dstBase : FsPath) : FS → List String → Outcome
  | fs, [] => .ok fs
  | fs, name :: rest =>
    match copyFile fs (srcBase ++ [name]) (dstBase ++ [name]) with
    | .error msg => .fatal msg fs
    | .ok fs2 => copyLoop srcBase dstBase fs2 rest

/-- `svFileRegex.MatchString(name)` for the regexp `.*\.lua$`: accepts
exactly the names ending in ".lua". -/
def matchesLua (n : String) : Bool :=
  List.isSuffixOf luaExt.data n.data

/-- The saved-variables copy phases (lines 437-452 and 458-473): list the
source `SavedVariables` directory (`log.Fatal` when it cannot be read) and
copy every entry whose name matches the `.lua` pattern. -/
def copySavedVariables (fs : FS) (srcBase dstBase : FsPath) : Outcome :=
  match fs.readDir (srcBase ++ [savedVariablesName]) with
  | none => .fatal msgReadDirFail fs
  | some entries =>
    copyLoop (srcBase ++ [savedVariablesName]) (dstBase ++ [savedVariablesName]) fs
      ((entries.map (fun e => e.name)).filter matchesLua)

/-- `strings.HasSuffix(path, ".lua")` on a joined path: the final component
ends in ".lua". -/
def hasLuaSuffix (p : FsPath) : Bool :=
  match p.getLast? with
  | some n => List.isSuffixOf luaExt.data n.data
  | none => false

/-- The paths `filepath.WalkDir` visits below `r`: every existing directory
and file having `r` as a path prefix. -/
def walkList (fs : FS) (r : FsPath) : List FsPath :=
  fs.dirs.filter (fun d => r.isPrefixOf d) ++
    (fs.files.map (fun e => e.1)).filter (fun q => r.isPrefixOf q)

/-- One step of the substitution walk (lines 476-488): on a path ending in
".lua", read the file (`log.Fatalln` on failure), apply the substitution to
the bytes read, and write the result back, discarding the error value
returned by `os.WriteFile` as the source does on line 486. -/
def substStep (srcWtf dstWtf : Wtf) (fs : FS) (q : FsPath) : Outcome :=
  if hasLuaSuffix q then
    match fs.readFile q with
    | none => .fatal msgReadFileFail fs
    | some data =>
      let updated := substituteLua srcWtf dstWtf data
      match fs.writeFileE q updated with
      | .ok fs2 => .ok fs2
      | .error _ => .ok fs
  else .ok fs

def substFold (srcWtf dstWtf : Wtf) : FS → List FsPath → Outcome
  | fs, [] => .ok fs
  | fs, q :: qs => (substStep srcWtf dstWtf fs q).andThen (fun fs2 => substFold srcWtf dstWtf fs2 qs)

/-- The identity substitution pass (lines 475-490): walk the destination
account tree and process every ".lua" path. -/
def substPass (srcWtf dstWtf : Wtf) (fs : FS) (r : FsPath) : Outcome :=
  substFold srcWtf dstWtf fs (walkList fs r)

/-- Whether `sub` occurs as a contiguous substring of `s`; models
`strings.Contains`. -/
def isSubstringOf (sub : List Char) : List Char → Bool
  | [] => sub.isEmpty
  | c :: rest => sub.isPrefixOf (c :: rest) || isSubstringOf sub rest

/-- Cache-marker deletion (lines 496-512): `os.Remove`, treating an error
whose text contains "no such file or directory" as success and any other
error as fatal. -/
def removeCache (fs : FS) (p : FsPath) : Outcome :=
  match fs.remove p with
  | .ok fs2 => .ok fs2
  | .error msg =>
    if !(isSubstringOf msgNoSuchFile.data msg.data) then .fatal msg fs else .ok fs

def accountFilesToCopy : List String :=
  ["bindings-cache.wtf", "config-cache.wtf", "macros-cache.txt"]

def characterFilesToCopy : List String :=
  ["AddOns.txt", "config-cache.wtf", "layout-local.txt", "macros-cache.txt"]

def cacheFileName : String := "cache.md5"

/-- `filepath.Join(installDirectory, version, "WTF", "Account", account)`. -/
def wtfAccountPath (installDirectory : FsPath) (t : CopyTarget) : FsPath :=
  installDirectory ++ [t.version, "WTF", "Account", t.wtf.account]

/-- The character directory under the account path (line 416/417). -/
def wtfCharacterPath (installDirectory : FsPath) (t : CopyTarget) : FsPath :=
  wtfAccountPath installDirectory t ++ [t.wtf.server, t.wtf.character]

/-- The migration engine: lines 397-514 of `main`, after both targets are
selected and confirmed.  Phases in source order: account-level fixed files,
character-level fixed files, account saved variables, character saved
variables, identity substitution over the destination account tree, cache
invalidation at both destination scopes. -/
def migrate (fs : FS) (installDirectory : FsPath) (srcConfig dstConfig : CopyTarget) : Outcome :=
  (copyLoop (wtfAccountPath installDirectory srcConfig)
      (wtfAccountPath installDirectory dstConfig) fs accountFilesToCopy).andThen (fun fs1 =>
  (copyLoop (wtfCharacterPath installDirectory srcConfig)
      (wtfCharacterPath installDirectory dstConfig) fs1 characterFilesToCopy).andThen (fun fs2 =>
  (copySavedVariables fs2 (wtfAccountPath installDirectory srcConfig)
      (wtfAccountPath installDirectory dstConfig)).andThen (fun fs3 =>
  (copySavedVariables fs3 (wtfCharacterPath installDirectory srcConfig)
      (wtfCharacterPath installDirectory dstConfig)).andThen (fun fs4 =>
  (substPass srcConfig.wtf dstConfig.wtf fs4
      (wtfAccountPath installDirectory dstConfig)).andThen (fun fs5 =>
  (removeCache fs5 (wtfAccountPath installDirectory dstConfig ++ [cacheFileName])).andThen (fun fs6 =>
  removeCache fs6 (wtfCharacterPath installDirectory dstConfig ++ [cacheFileName])))))))

/-- Error-propagating map over a list, the shape of the nested enumeration
loops (each `os.ReadDir` failure inside the loop aborts via `log.Fatal`). -/
def mapE (f : α → Except String β) : List α → Except String (List β)
  | [] => .ok []
  | x :: xs =>
    match f x with
    | .error m => .error m
    | .ok y =>
      match mapE f xs with
      | .error m => .error m
      | .ok ys => .ok (y :: ys)

/-- Names of the subdirectory entries, excluding one reserved name: the
filter `entry.IsDir() && entry.Name() != excluded` of lines 70 and 77. -/
def dirNamesExcluding (es : List DirEntry) (excluded : String) : List String :=
  ((es.filter (fun e => e.isDir)).map (fun e => e.name)).filter (fun n => n != excluded)

/-- Innermost level of the enumeration loop nest (lines 83-92): list the
server directory (`log.Fatal` on failure) and yield one triple per
subdirectory, of arbitrary name, as a character. -/
def charTriples (fs : FS) (accountPath : FsPath) (acctName serverName : String) :
    Except String (List Wtf) :=
  match fs.readDir (accountPath ++ [serverName]) with
  | none => .error msgReadDirFail
  | some characterFiles =>
    .ok (((characterFiles.filter (fun e => e.isDir)).map (fun e => e.name)).map
      (fun characterName =>
        { account := acctName, server := serverName, character := characterName : Wtf }))

/-- Middle level of the enumeration loop nest (lines 72-94): list the
account directory (`log.Fatal` on failure) and recurse into every
subdirectory except the reserved `SavedVariables` name. -/
def serverTriples (fs : FS) (wtfPath : FsPath) (acctName : String) :
    Except String (List Wtf) :=
  match fs.readDir (wtfPath ++ [acctName]) with
  | none => .error msgReadDirFail
  | some serverFiles =>
    match mapE (charTriples fs (wtfPath ++ [acctName]) acctName)
        (dirNamesExcluding serverFiles savedVariablesName) with
    | .error m => .error m
    | .ok perServer => .ok perServer.flatten

/-- The identity enumerator `getWtfConfigurations` (lines 57-98): a
three-level nested scan of `installDirectory/version/WTF/Account`,
skipping the reserved `SavedVariables` name at the account and server
levels, taking every subdirectory at the character level, aborting on any
`os.ReadDir` failure. -/
def getWtfConfigurations (fs : FS) (installDirectory : FsPath) (version : String) :
    Except String (List Wtf) :=
  let wtfPath := installDirectory ++ [version, "WTF", "Account"]
  match fs.readDir wtfPath with
  | none => .error msgReadDirFail
  | some wtfFiles =>
    match mapE (serverTriples fs wtfPath)
        (dirNamesExcluding wtfFiles savedVariablesName) with
    | .error m => .error m
    | .ok perAccount => .ok perAccount.flatten

/-- The remediation message printed by `selectWtf` when a version has no
configurations (line 154). -/
def noConfigsMessage (version : String) : String :=
  "No valid WTF configurations found in " ++ version ++
    ". Try logging into a character on this version of the client, first!"

/-- The three ways the enumeration step of `selectWtf` can leave the
program: a fatal I/O abort inside `getWtfConfigurations`, the explicit
`os.Exit(1)` with remediation message on an empty result, or proceeding to
the interactive selection with a non-empty list. -/
inductive SelectOutcome where
  | fatal : String → SelectOutcome
  | exitNoConfigs : String → Nat → SelectOutcome
  | proceed : List Wtf → SelectOutcome
deriving DecidableEq

/-- Decision logic of `selectWtf` (lines 150-161) around the enumeration
result; the interactive prompts themselves are out-of-scope presentation. -/
def selectWtfOutcome (fs : FS) (installDirectory : FsPath) (version : String) : SelectOutcome :=
  match getWtfConfigurations fs installDirectory version with
  | .error m => .fatal m
  | .ok configs =>
    if configs.isEmpty then .exitNoConfigs (noConfigsMessage version) 1
    else .proceed configs

/-- A filesystem is ancestor-closed when every non-root directory's parent
is also present; true of any tree actually on disk. -/
def FS.Closed (fs : FS) : Prop :=
  ∀ d ∈ fs.dirs, d ≠ [] → d.dropLast ∈ fs.dirs

instance (fs : FS) : Decidable fs.Closed := by
  unfold FS.Closed
  infer_instance

/-- Basic well-formedness of a filesystem snapshot: no duplicate directory
paths, no duplicate file paths, no path that is both a directory and a
file.  True of any real directory tree. -/
def FS.WF (fs : FS) : Prop :=
  fs.dirs.Nodup ∧ (fs.files.map (fun e => e.1)).Nodup ∧
    ∀ d ∈ fs.dirs, ∀ e ∈ fs.files, d ≠ e.1

instance (fs : FS) : Decidable fs.WF := by
  unfold FS.WF
  infer_instance

/-- The mutation footprint of a run: `TreeWrites r fs fs'` states that
`fs'` arises from `fs` by a sequence of file writes and file deletions all
located below the directory `r`.  Every mutation the migration engine
performs is a `writeFile` or an `eraseFile` at a destination-side path, so
a run's outcome state is reachable this way below the destination account
directory. -/
inductive TreeWrites (r : FsPath) : FS → FS → Prop where
  | refl (fs : FS) : TreeWrites r fs fs
  | write (fs fs' : FS) (p : FsPath) (c : List Char) (hp : r.isPrefixOf p = true)
      (h : TreeWrites r fs fs') : TreeWrites r fs (fs'.writeFile p c)
  | erase (fs fs' : FS) (p : FsPath) (hp : r.isPrefixOf p = true)
      (h : TreeWrites r fs fs') : TreeWrites r fs (fs'.eraseFile p)

/-! ## Concrete input data used by witnesses and counterexamples -/

/-- Source target of the C5 scenario (account A). -/
def srcT5 : CopyTarget := ⟨⟨"A", "S1", "C1"⟩, "_retail_"⟩

/-- Destination target of the C5 scenario (account B). -/
def dstT5 : CopyTarget := ⟨⟨"B", "S2", "C2"⟩, "_retail_"⟩

/-- The C5 scenario: the source account's `bindings-cache.wtf` exists but
its `config-cache.wtf` (second in the fixed list) is missing. -/
def fsC5 : FS :=
  { dirs := [[]],
    files := [(["_retail_", "WTF", "Account", "A", "bindings-cache.wtf"], "b".data)],
    readOnly := [] }

/-- Account directory of the C1 source identity (AccA, Realm1, Alice). -/
def srcA1 : FsPath := ["_retail_", "WTF", "Account", "AccA"]

/-- Account directory of the C1 destination identity (AccB, Realm2, Bob). -/
def dstA1 : FsPath := ["_retail_", "WTF", "Account", "AccB"]

def srcC1 : FsPath := srcA1 ++ ["Realm1", "Alice"]

def dstC1 : FsPath := dstA1 ++ ["Realm2", "Bob"]

/-- A saved-variables data file that mentions the C1 source identity in the
"Character-Server" styling. -/
def dataC1 : List Char := "x Alice-Realm1 y".data

/-- A complete installation tree for the C1 scenario: all fixed source
artifacts exist, and the source account `SavedVariables` holds `Data.lua`
containing the text `Alice-Realm1`. -/
def fsC1 : FS :=
  { dirs := [[], ["_retail_"], ["_retail_", "WTF"], ["_retail_", "WTF", "Account"],
      srcA1, srcA1 ++ ["SavedVariables"], srcA1 ++ ["Realm1"], srcC1, srcC1 ++ ["SavedVariables"],
      dstA1, dstA1 ++ ["SavedVariables"], dstA1 ++ ["Realm2"], dstC1, dstC1 ++ ["SavedVariables"]],
    files := [
      (srcA1 ++ ["bindings-cache.wtf"], "b".data),
      (srcA1 ++ ["config-cache.wtf"], "c".data),
      (srcA1 ++ ["macros-cache.txt"], "m".data),
      (srcC1 ++ ["AddOns.txt"], "a".data),
      (srcC1 ++ ["config-cache.wtf"], "c".data),
      (srcC1 ++ ["layout-local.txt"], "l".data),
      (srcC1 ++ ["macros-cache.txt"], "m".data),
      (srcA1 ++ ["SavedVariables", "Data.lua"], dataC1)],
    readOnly := [] }

def srcT1 : CopyTarget := ⟨⟨"AccA", "Realm1", "Alice"⟩, "_retail_"⟩

def dstT1 : CopyTarget := ⟨⟨"AccB", "Realm2", "Bob"⟩, "_retail_"⟩

/-- The state produced by migrating the C1 scenario. -/
def fsC1fin : FS := (migrate fsC1 [] srcT1 dstT1).fs

/-- Destination copy of `Data.lua` in the C1 scenario. -/
def dstDataFsPath1 : FsPath := dstA1 ++ ["SavedVariables", "Data.lua"]

/-- Account directory of the C4 source identity (A, S1, C1). -/
def srcA4 : FsPath := ["_retail_", "WTF", "Account", "A"]

/-- Account directory of the C4 destination identity (B, S2, C2). -/
def dstA4 : FsPath := ["_retail_", "WTF", "Account", "B"]

def srcC4 : FsPath := srcA4 ++ ["S1", "C1"]

def dstC4 : FsPath := dstA4 ++ ["S2", "C2"]

/-- A pre-existing destination data file that mentions the C4 source
identity in the styling the third substitution pattern matches. -/
def roContent4 : List Char := "q S1 - C1 r".data

/-- The read-only destination data file of the C4 scenario: it is not
overwritten by any copy phase (the source tree has no file of that name),
so only the substitution pass attempts to write it. -/
def roFsPath4 : FsPath := dstA4 ++ ["SavedVariables", "RO.lua"]

/-- The C4 scenario: a complete source tree, and a destination tree whose
`SavedVariables/RO.lua` needs substitution but cannot be written. -/
def fsC4 : FS :=
  { dirs := [[], ["_retail_"], ["_retail_", "WTF"], ["_retail_", "WTF", "Account"],
      srcA4, srcA4 ++ ["SavedVariables"], srcA4 ++ ["S1"], srcC4, srcC4 ++ ["SavedVariables"],
      dstA4, dstA4 ++ ["SavedVariables"], dstA4 ++ ["S2"], dstC4, dstC4 ++ ["SavedVariables"]],
    files := [
      (srcA4 ++ ["bindings-cache.wtf"], "b".data),
      (srcA4 ++ ["config-cache.wtf"], "c".data),
      (srcA4 ++ ["macros-cache.txt"], "m".data),
      (srcC4 ++ ["AddOns.txt"], "a".data),
      (srcC4 ++ ["config-cache.wtf"], "c".data),
      (srcC4 ++ ["layout-local.txt"], "l".data),
      (srcC4 ++ ["macros-cache.txt"], "m".data),
      (roFsPath4, roContent4)],
    readOnly := [roFsPath4] }

def srcT4 : CopyTarget := ⟨⟨"A", "S1", "C1"⟩, "_retail_"⟩

def dstT4 : CopyTarget := ⟨⟨"B", "S2", "C2"⟩, "_retail_"⟩

/-- The state produced by migrating the C4 scenario. -/
def fsC4fin : FS := (migrate fsC4 [] srcT4 dstT4).fs

/-- The C8 scenario: a cache-marker file that exists but cannot be deleted,
and a second path with no file at all. -/
def roMarker8 : FsPath := ["cache.md5"]

def absentMarker8 : FsPath := ["missing.md5"]

def fsC8 : FS :=
  { dirs := [[]],
    files := [(roMarker8, "h".data)],
    readOnly := [roMarker8] }

/-- The C9 scenario: a version whose `WTF/Account` directory exists but
holds no account at all, so enumeration yields zero identities. -/
def fsC9 : FS :=
  { dirs := [[], ["_retail_"], ["_retail_", "WTF"], ["_retail_", "WTF", "Account"]],
    files := [],
    readOnly := [] }

/-- Source target of the C6 counterexample: server S, character CC, so the
effective (third) substitution pattern is "S - CC". -/
def srcTx : CopyTarget := ⟨⟨"AX", "S", "CC"⟩, "_retail_"⟩

/-- Destination target of the C6 counterexample: server S, account C, so
the replacement text is "S - C", a proper prefix of the pattern. -/
def dstTx : CopyTarget := ⟨⟨"C", "S", "D"⟩, "_retail_"⟩

def srcAx : FsPath := ["_retail_", "WTF", "Account", "AX"]

def dstAx : FsPath := ["_retail_", "WTF", "Account", "C"]

def srcCx : FsPath := srcAx ++ ["S", "CC"]

def dstCx : FsPath := dstAx ++ ["S", "D"]

/-- A data file under the destination account tree that no copy phase
overwrites: each run's substitution pass rewrites it in place. -/
def stickyFsPath : FsPath := dstAx ++ ["Sticky.lua"]

/-- The C6 counterexample tree: a complete source tree, plus the untouched
destination file `Sticky.lua` whose content "S - CCC" still contains the
substitution pattern after being substituted once. -/
def fsC6x : FS :=
  { dirs := [[], ["_retail_"], ["_retail_", "WTF"], ["_retail_", "WTF", "Account"],
      srcAx, srcAx ++ ["SavedVariables"], srcAx ++ ["S"], srcCx, srcCx ++ ["SavedVariables"],
      dstAx, dstAx ++ ["SavedVariables"], dstAx ++ ["S"], dstCx, dstCx ++ ["SavedVariables"]],
    files := [
      (srcAx ++ ["bindings-cache.wtf"], "b".data),
      (srcAx ++ ["config-cache.wtf"], "c".data),
      (srcAx ++ ["macros-cache.txt"], "m".data),
      (srcCx ++ ["AddOns.txt"], "a".data),
      (srcCx ++ ["config-cache.wtf"], "c".data),
      (srcCx ++ ["layout-local.txt"], "l".data),
      (srcCx ++ ["macros-cache.txt"], "m".data),
      (stickyFsPath, "S - CCC".data)],
    readOnly := [] }

/-- The state after migrating the C6 counterexample tree once. -/
def fs1x : FS := (migrate fsC6x [] srcTx dstTx).fs

/-- The state after migrating it a second time. -/
def fs2x : FS := (migrate fs1x [] srcTx dstTx).fs

/-- The spec's end-to-end enumeration example, enriched with reserved-name
directories at both the account and the server level (each containing
subdirectories that would wrongly become identities if the reserved name
were not skipped) and a non-directory entry at the server level. -/
def fsC3w : FS :=
  { dirs := [[], ["_retail_"], ["_retail_", "WTF"], ["_retail_", "WTF", "Account"],
      ["_retail_", "WTF", "Account", "SavedVariables"],
      ["_retail_", "WTF", "Account", "SavedVariables", "X"],
      ["_retail_", "WTF", "Account", "SavedVariables", "X", "Y"],
      ["_retail_", "WTF", "Account", "ACC1"],
      ["_retail_", "WTF", "Account", "ACC1", "SavedVariables"],
      ["_retail_", "WTF", "Account", "ACC1", "SavedVariables", "Z"],
      ["_retail_", "WTF", "Account", "ACC1", "Realm-A"],
      ["_retail_", "WTF", "Account", "ACC1", "Realm-A", "Hero"],
      ["_retail_", "WTF", "Account", "ACC1", "Realm-A", "Mage"]],
    files := [(["_retail_", "WTF", "Account", "ACC1", "notes.txt"], "n".data)],
    readOnly := [] }

/-- The identities the enumerator yields on `fsC3w`. -/
def wtfListC3 : List Wtf :=
  [⟨"ACC1", "Realm-A", "Hero"⟩, ⟨"ACC1", "Realm-A", "Mage"⟩]

/-- The list of file paths present in a snapshot, in storage order. -/
def FS.fileKeys (fs : FS) : List FsPath := fs.files.map (fun e => e.1)

/-- Source target of the C6 amended-claim witness scenario. -/
def srcTw : CopyTarget := ⟨⟨"A", "S1", "C1"⟩, "_retail_"⟩

/-- Destination target of the C6 amended-claim witness scenario. -/
def dstTw : CopyTarget := ⟨⟨"B", "S2", "C2"⟩, "_retail_"⟩

/-- Source account directory of the witness scenario. -/
def srcAw : FsPath := ["_retail_", "WTF", "Account", "A"]

/-- Destination account directory of the witness scenario. -/
def dstAw : FsPath := ["_retail_", "WTF", "Account", "B"]

/-- Source character directory of the witness scenario. -/
def srcCw : FsPath := srcAw ++ ["S1", "C1"]

/-- Destination character directory of the witness scenario. -/
def dstCw : FsPath := dstAw ++ ["S2", "C2"]

/-- A destination data file no copy phase overwrites, with fixed-point content. -/
def keepFsPath : FsPath := dstAw ++ ["Keep.lua"]

/-- A well-formed tree on which the migration really is idempotent: every
data file that ends up under the destination account tree after one run is
a fixed point of the (effective, third-pattern-only) substitution. -/
def fsC6w : FS :=
  { dirs := [[], ["_retail_"], ["_retail_", "WTF"], ["_retail_", "WTF", "Account"],
      srcAw, srcAw ++ ["SavedVariables"], srcAw ++ ["S1"], srcCw, srcCw ++ ["SavedVariables"],
      dstAw, dstAw ++ ["SavedVariables"], dstAw ++ ["S2"], dstCw, dstCw ++ ["SavedVariables"]],
    files := [
      (srcAw ++ ["bindings-cache.wtf"], "b".data),
      (srcAw ++ ["config-cache.wtf"], "c".data),
      (srcAw ++ ["macros-cache.txt"], "m".data),
      (srcAw ++ ["SavedVariables", "Foo.lua"], "x C1-S1 y".data),
      (srcCw ++ ["AddOns.txt"], "a".data),
      (srcCw ++ ["config-cache.wtf"], "c".data),
      (srcCw ++ ["layout-local.txt"], "l".data),
      (srcCw ++ ["macros-cache.txt"], "m".data),
      (srcCw ++ ["SavedVariables", "Bar.lua"], "S1 -C1".data),
      (keepFsPath, "ok".data)],
    readOnly := [] }

/-- The witness state after one migration run. -/
def fs1w : FS := (migrate fsC6w [] srcTw dstTw).fs

/-- The witness state after a second identical run. -/
def fs2w : FS := (migrate fs1w [] srcTw dstTw).fs

/-! ## Theorems -/

/-- C1: the claim states that after the substitution pass every data file
that originally contained "Alice-Realm1" contains "Bob-Realm2" and no
longer contains "Alice-Realm1".  The code violates this: the results of the
first two `bytes.ReplaceAll` calls are discarded (each call is applied to
`data` and re-binds `updated`), so only the third pattern
("Server - Character") has any effect on the written bytes.  On the C1
scenario the migration completes without error, yet the destination copy of
`Data.lua` still contains "Alice-Realm1" and does not contain
"Bob-Realm2". -/
theorem claim_C1_substitution_pass_ineffective :
    migrate fsC1 [] srcT1 dstT1 = .ok fsC1fin ∧
    fsC1fin.readFile dstDataFsPath1 = some dataC1 ∧
    isSubstringOf ("Alice" ++ "-" ++ "Realm1").data dataC1 = true ∧
    isSubstringOf ("Bob" ++ "-" ++ "Realm2").data dataC1 = false := by
  exact ⟨rfl, by decide, by decide, by decide⟩

/-- C2: the claim states that each substitution pattern maps the source
character to the destination character and the source server to the
destination server, so "S1 - C1" (server - character) should become
"S2 - C2".  The code instead rewrites it to "S2 - A2": the replacement for
the third pattern is built from the destination's server and *account*
(line 485), not its character. -/
theorem claim_C2_third_pattern_account_mixup :
    substituteLua ⟨"A1", "S1", "C1"⟩ ⟨"A2", "S2", "C2"⟩ (" S1 - C1 ".data) =
      (" S2 - A2 ".data) ∧
    (" S2 - A2 ".data : List Char) ≠ (" S2 - C2 ".data : List Char) := by
  exact ⟨by decide, by decide⟩

/-- C4: the claim states that every failed write, in any phase including
the substitution pass, is fatal.  The code ignores the error value returned
by `os.WriteFile` on line 486: on the C4 scenario the read-only destination
file `RO.lua` needs rewriting (the substitution changes its bytes), the
write of the rewritten bytes fails, and the run nevertheless completes with
a successful outcome, leaving the file unchanged. -/
theorem claim_C4_substitution_write_error_ignored :
    migrate fsC4 [] srcT4 dstT4 = .ok fsC4fin ∧
    fsC4fin.readFile roFsPath4 = some roContent4 ∧
    substituteLua srcT4.wtf dstT4.wtf roContent4 ≠ roContent4 := by
  exact ⟨rfl, by decide, by decide⟩

/-- C8: in the cache-invalidation phase (lines 496-512), deleting an absent
cache-marker file is a no-op success (the "no such file or directory" error
text is tolerated), while any other deletion failure, here a permission
error on an existing marker, is fatal and carries the state unchanged. -/
theorem claim_C8_cache_marker_removal (fs : FS) (p : FsPath) :
    (fs.readFile p = none → removeCache fs p = .ok fs) ∧
    (fs.readFile p ≠ none → p ∈ fs.readOnly →
      removeCache fs p = .fatal msgPermissionDenied fs) := by
  constructor
  · intro h
    have hsub : isSubstringOf msgNoSuchFile.data msgRemoveNoEnt.data = true := by decide
    simp [removeCache, FS.remove, h, hsub]
  · intro h hmem
    rcases hx : fs.readFile p with _ | d
    · exact absurd hx h
    · have hsub : isSubstringOf msgNoSuchFile.data msgPermissionDenied.data = false := by decide
      simp [removeCache, FS.remove, hx, hmem, hsub]

/-- Witness for C8: on the concrete `fsC8`, removing the absent marker is a
successful no-op and removing the undeletable existing marker is fatal. -/
theorem claim_C8_cache_marker_removal_witness :
    (fsC8.readFile absentMarker8 = none ∧ removeCache fsC8 absentMarker8 = .ok fsC8) ∧
    (fsC8.readFile roMarker8 ≠ none ∧ roMarker8 ∈ fsC8.readOnly ∧
      removeCache fsC8 roMarker8 = .fatal msgPermissionDenied fsC8) :=
  ⟨⟨by decide, (claim_C8_cache_marker_removal fsC8 absentMarker8).1 (by decide)⟩,
   ⟨by decide, by decide,
    (claim_C8_cache_marker_removal fsC8 roMarker8).2 (by decide) (by decide)⟩⟩

/-- C9: when enumeration for the chosen version succeeds with zero
identities, `selectWtf` reports the specific "log into a character first"
remediation message and exits with the non-zero status 1 (lines 152-161),
a path distinct from the fatal abort taken on an enumeration I/O error. -/
theorem claim_C9_empty_enumeration_exit (fs : FS) (installDirectory : FsPath) (version : String) :
    (getWtfConfigurations fs installDirectory version = .ok [] →
      selectWtfOutcome fs installDirectory version =
        .exitNoConfigs (noConfigsMessage version) 1 ∧ (1 : Nat) ≠ 0) ∧
    (∀ m, getWtfConfigurations fs installDirectory version = .error m →
      selectWtfOutcome fs installDirectory version = .fatal m) := by
  constructor
  · intro h
    refine ⟨?_, by decide⟩
    simp [selectWtfOutcome, h]
  · intro m h
    simp [selectWtfOutcome, h]

/-- Witness for C9: on the concrete `fsC9` the retail version enumerates to
the empty list and the outcome is the remediation exit with status 1. -/
theorem claim_C9_empty_enumeration_exit_witness :
    getWtfConfigurations fsC9 [] "_retail_" = .ok [] ∧
    selectWtfOutcome fsC9 [] "_retail_" =
      .exitNoConfigs (noConfigsMessage "_retail_") 1 ∧ (1 : Nat) ≠ 0 :=
  ⟨rfl, (claim_C9_empty_enumeration_exit fsC9 [] "_retail_").1 rfl⟩

theorem isPrefixOf_iff_exists (p q : FsPath) : p.isPrefixOf q = true ↔ ∃ t, q = p ++ t := by
  induction p generalizing q with
  | nil => simp [List.isPrefixOf]
  | cons a p ih =>
    cases q with
    | nil => simp [List.isPrefixOf]
    | cons b q =>
      simp only [List.isPrefixOf, Bool.and_eq_true, beq_iff_eq, ih, List.cons_append,
        List.cons.injEq]
      constructor
      · rintro ⟨rfl, t, rfl⟩; exact ⟨t, rfl, rfl⟩
      · rintro ⟨t, rfl, rfl⟩; exact ⟨rfl, t, rfl⟩

theorem isPrefixOf_append_self (p t : FsPath) : p.isPrefixOf (p ++ t) = true :=
  (isPrefixOf_iff_exists p (p ++ t)).2 ⟨t, rfl⟩

theorem childName_eq_some {p d : FsPath} {n : String} :
    childName p d = some n ↔ d = p ++ [n] := by
  constructor
  · intro h
    unfold childName at h
    by_cases hp : p.isPrefixOf d
    · rcases (isPrefixOf_iff_exists p d).1 hp with ⟨t, rfl⟩
      rw [if_pos hp] at h
      rcases t with _ | ⟨x, _ | ⟨y, t⟩⟩ <;> simp_all
    · rw [if_neg hp] at h; cases h
  · rintro rfl
    unfold childName
    rw [if_pos (isPrefixOf_append_self p [n])]
    simp

theorem readDir_dir_mem {fs : FS} {p : FsPath} {es : List DirEntry}
    (h : fs.readDir p = some es) (n : String) :
    (⟨n, true⟩ : DirEntry) ∈ es ↔ (p ++ [n]) ∈ fs.dirs := by
  unfold FS.readDir at h
  by_cases hc : fs.dirs.contains p
  · rw [if_pos hc] at h
    injection h with h
    subst h
    simp only [List.mem_append, List.mem_filterMap, Option.map_eq_some']
    constructor
    · rintro (⟨d, hd, m, hm, he⟩ | ⟨e, _, m, _, he⟩)
      · injection he with h1 h2
        subst h1
        exact (childName_eq_some.1 hm) ▸ hd
      · cases he
    · intro hmem
      exact .inl ⟨p ++ [n], hmem, n, childName_eq_some.2 rfl, rfl⟩
  · rw [if_neg hc] at h; cases h

theorem mem_dirNamesExcluding {es : List DirEntry} {ex n : String} :
    n ∈ dirNamesExcluding es ex ↔ ((⟨n, true⟩ : DirEntry) ∈ es ∧ n ≠ ex) := by
  simp only [dirNamesExcluding, List.mem_filter, List.mem_map, bne_iff_ne, ne_eq]
  constructor
  · rintro ⟨⟨⟨en, ed⟩, ⟨he, hd⟩, rfl⟩, hne⟩
    simp only at hd
    subst hd
    exact ⟨he, hne⟩
  · rintro ⟨hmem, hne⟩
    exact ⟨⟨⟨n, true⟩, ⟨hmem, rfl⟩, rfl⟩, hne⟩

theorem mapE_ok_forall₂ {α β : Type} {f : α → Except String β} {xs : List α} {ys : List β}
    (h : mapE f xs = .ok ys) : List.Forall₂ (fun x y => f x = .ok y) xs ys := by
  induction xs generalizing ys with
  | nil =>
    unfold mapE at h
    injection h with h
    subst h
    exact .nil
  | cons x xs ih =>
    unfold mapE at h
    rcases hf : f x with m | y <;> rw [hf] at h
    · cases h
    · rcases hm : mapE f xs with m | ys' <;> rw [hm] at h
      · cases h
      · injection h with h
        subst h
        exact .cons hf (ih hm)

theorem forall₂_mem_right {α β : Type} {R : α → β → Prop} {xs : List α} {ys : List β}
    (h : List.Forall₂ R xs ys) {y : β} (hy : y ∈ ys) : ∃ x ∈ xs, R x y := by
  induction h with
  | nil => cases hy
  | cons hr _ ih =>
    rcases List.mem_cons.1 hy with rfl | hy'
    · exact ⟨_, List.mem_cons_self _ _, hr⟩
    · rcases ih hy' with ⟨x, hx, hR⟩
      exact ⟨x, List.mem_cons_of_mem _ hx, hR⟩

theorem forall₂_mem_left {α β : Type} {R : α → β → Prop} {xs : List α} {ys : List β}
    (h : List.Forall₂ R xs ys) {x : α} (hx : x ∈ xs) : ∃ y ∈ ys, R x y := by
  induction h with
  | nil => cases hx
  | cons hr _ ih =>
    rcases List.mem_cons.1 hx with rfl | hx'
    · exact ⟨_, List.mem_cons_self _ _, hr⟩
    · rcases ih hx' with ⟨y, hy, hR⟩
      exact ⟨y, List.mem_cons_of_mem _ hy, hR⟩

theorem mem_dirNames {es : List DirEntry} {n : String} :
    n ∈ (es.filter (fun e => e.isDir)).map (fun e => e.name) ↔ (⟨n, true⟩ : DirEntry) ∈ es := by
  simp only [List.mem_map, List.mem_filter]
  constructor
  · rintro ⟨⟨en, ed⟩, ⟨he, hd⟩, rfl⟩
    simp only at hd
    subst hd
    exact he
  · intro hmem
    exact ⟨⟨n, true⟩, ⟨hmem, rfl⟩, rfl⟩

theorem charTriples_mem {fs : FS} {accountPath : FsPath} {acctName serverName : String}
    {ts : List Wtf} (h : charTriples fs accountPath acctName serverName = .ok ts) (w : Wtf) :
    w ∈ ts ↔ ∃ c, w = ⟨acctName, serverName, c⟩ ∧
      (accountPath ++ [serverName] ++ [c]) ∈ fs.dirs := by
  unfold charTriples at h
  rcases hrd : fs.readDir (accountPath ++ [serverName]) with _ | characterFiles <;> rw [hrd] at h
  · cases h
  · injection h with h
    subst h
    rw [List.mem_map]
    constructor
    · rintro ⟨c, hc, rfl⟩
      exact ⟨c, rfl, (readDir_dir_mem hrd c).1 (mem_dirNames.1 hc)⟩
    · rintro ⟨c, rfl, hdir⟩
      exact ⟨c, mem_dirNames.2 ((readDir_dir_mem hrd c).2 hdir), rfl⟩

theorem serverTriples_mem {fs : FS} {wtfPath : FsPath} {acctName : String}
    {ts : List Wtf} (h : serverTriples fs wtfPath acctName = .ok ts) (w : Wtf) :
    w ∈ ts ↔ (w.account = acctName ∧ w.server ≠ savedVariablesName ∧
      (wtfPath ++ [acctName] ++ [w.server]) ∈ fs.dirs ∧
      (wtfPath ++ [acctName] ++ [w.server] ++ [w.character]) ∈ fs.dirs) := by
  unfold serverTriples at h
  rcases hrd : fs.readDir (wtfPath ++ [acctName]) with _ | serverFiles <;> rw [hrd] at h
  · cases h
  · dsimp only at h
    rcases hm : mapE (charTriples fs (wtfPath ++ [acctName]) acctName)
        (dirNamesExcluding serverFiles savedVariablesName) with m | perServer <;> rw [hm] at h
    · cases h
    · injection h with h
      subst h
      have hF := mapE_ok_forall₂ hm
      constructor
      · intro hw
        rcases List.mem_flatten.1 hw with ⟨sub, hsub, hwsub⟩
        rcases forall₂_mem_right hF hsub with ⟨s, hs, hct⟩
        rcases mem_dirNamesExcluding.1 hs with ⟨hsdir, hsne⟩
        rcases (charTriples_mem hct w).1 hwsub with ⟨c, rfl, hdir⟩
        exact ⟨rfl, hsne, (readDir_dir_mem hrd s).1 hsdir, hdir⟩
      · rintro ⟨hacc, hsne, hsdir, hdir⟩
        rcases w with ⟨wa, ws, wc⟩
        simp only at hacc hsne hsdir hdir
        subst hacc
        have hs : ws ∈ dirNamesExcluding serverFiles savedVariablesName :=
          mem_dirNamesExcluding.2 ⟨(readDir_dir_mem hrd ws).2 hsdir, hsne⟩
        rcases forall₂_mem_left hF hs with ⟨sub, hsub, hct⟩
        refine List.mem_flatten.2 ⟨sub, hsub, ?_⟩
        exact (charTriples_mem hct _).2 ⟨wc, rfl, hdir⟩

theorem getWtf_mem {fs : FS} {root : FsPath} {v : String} {l : List Wtf}
    (h : getWtfConfigurations fs root v = .ok l) (w : Wtf) :
    w ∈ l ↔ (w.account ≠ savedVariablesName ∧ w.server ≠ savedVariablesName ∧
      (root ++ [v, "WTF", "Account"] ++ [w.account]) ∈ fs.dirs ∧
      (root ++ [v, "WTF", "Account"] ++ [w.account] ++ [w.server]) ∈ fs.dirs ∧
      (root ++ [v, "WTF", "Account"] ++ [w.account] ++ [w.server] ++ [w.character]) ∈ fs.dirs) := by
  unfold getWtfConfigurations at h
  dsimp only at h
  rcases hrd : fs.readDir (root ++ [v, "WTF", "Account"]) with _ | wtfFiles <;> rw [hrd] at h
  · cases h
  · dsimp only at h
    rcases hm : mapE (serverTriples fs (root ++ [v, "WTF", "Account"]))
        (dirNamesExcluding wtfFiles savedVariablesName) with m | perAccount <;> rw [hm] at h
    · cases h
    · injection h with h
      subst h
      have hF := mapE_ok_forall₂ hm
      constructor
      · intro hw
        rcases List.mem_flatten.1 hw with ⟨sub, hsub, hwsub⟩
        rcases forall₂_mem_right hF hsub with ⟨a, ha, hst⟩
        rcases mem_dirNamesExcluding.1 ha with ⟨hadir, hane⟩
        rcases (serverTriples_mem hst w).1 hwsub with ⟨hacc, hsne, hsdir, hdir⟩
        subst hacc
        exact ⟨hane, hsne, (readDir_dir_mem hrd _).1 hadir, hsdir, hdir⟩
      · rintro ⟨hane, hsne, hadir, hsdir, hdir⟩
        have ha : w.account ∈ dirNamesExcluding wtfFiles savedVariablesName :=
          mem_dirNamesExcluding.2 ⟨(readDir_dir_mem hrd w.account).2 hadir, hane⟩
        rcases forall₂_mem_left hF ha with ⟨sub, hsub, hst⟩
        refine List.mem_flatten.2 ⟨sub, hsub, ?_⟩
        exact (serverTriples_mem hst w).2 ⟨rfl, hsne, hsdir, hdir⟩

theorem path6_eq (root : FsPath) (v a s c : String) :
    root ++ [v, "WTF", "Account"] ++ [a] ++ [s] ++ [c] =
      root ++ [v, "WTF", "Account", a, s, c] := by
  simp

/-- C3: soundness and completeness of the identity enumerator.  For an
ancestor-closed tree (true of any tree on disk) on which the enumeration
succeeded, the returned list contains a triple exactly when that literal
`installDirectory/version/WTF/Account/account/server/character` directory
exists and neither the account nor the server is the reserved
`SavedVariables` name: the result is the set of existing triples, not a
cartesian product of independently-seen values. -/
theorem claim_C3_enumerator_sound_complete (fs : FS) (root : FsPath) (v : String)
    (l : List Wtf) (hC : fs.Closed) (h : getWtfConfigurations fs root v = .ok l) (w : Wtf) :
    w ∈ l ↔ ((root ++ [v, "WTF", "Account", w.account, w.server, w.character]) ∈ fs.dirs ∧
      w.account ≠ savedVariablesName ∧ w.server ≠ savedVariablesName) := by
  rw [getWtf_mem h w]
  constructor
  · rintro ⟨hane, hsne, _, _, hdir⟩
    refine ⟨?_, hane, hsne⟩
    rw [← path6_eq]
    exact hdir
  · rintro ⟨hdir6, hane, hsne⟩
    rw [← path6_eq] at hdir6
    have h5 : (root ++ [v, "WTF", "Account"] ++ [w.account] ++ [w.server]) ∈ fs.dirs := by
      have := hC _ hdir6 (by simp)
      simpa using this
    have h4 : (root ++ [v, "WTF", "Account"] ++ [w.account]) ∈ fs.dirs := by
      have := hC _ h5 (by simp)
      simpa using this
    exact ⟨hane, hsne, h4, h5, hdir6⟩

/-- Witness for C3: on the concrete closed tree `fsC3w` the enumeration
succeeds with exactly the two expected identities, and the characterization
holds at the Hero identity. -/
theorem claim_C3_enumerator_sound_complete_witness :
    FS.Closed fsC3w ∧ getWtfConfigurations fsC3w [] "_retail_" = .ok wtfListC3 ∧
    (((⟨"ACC1", "Realm-A", "Hero"⟩ : Wtf) ∈ wtfListC3) ↔
      ((([] : FsPath) ++ ["_retail_", "WTF", "Account", "ACC1", "Realm-A", "Hero"]) ∈ fsC3w.dirs ∧
        ("ACC1" : String) ≠ savedVariablesName ∧ ("Realm-A" : String) ≠ savedVariablesName)) :=
  ⟨by decide, rfl,
    claim_C3_enumerator_sound_complete fsC3w [] "_retail_" wtfListC3 (by decide) rfl
      ⟨"ACC1", "Realm-A", "Hero"⟩⟩

/-- C7: the enumerator never yields a triple whose account or server is the
reserved `SavedVariables` directory name, for any input tree, including
trees that do contain directories of that name at those levels. -/
theorem claim_C7_reserved_name_never_returned (fs : FS) (root : FsPath) (v : String)
    (l : List Wtf) (h : getWtfConfigurations fs root v = .ok l) (w : Wtf) (hw : w ∈ l) :
    w.account ≠ savedVariablesName ∧ w.server ≠ savedVariablesName := by
  rcases (getWtf_mem h w).1 hw with ⟨hane, hsne, _⟩
  exact ⟨hane, hsne⟩

/-- Witness for C7: `fsC3w` contains `SavedVariables` directories at both
the account and the server level, each with nested subdirectories, yet the
enumerated Mage identity has neither field equal to the reserved name. -/
theorem claim_C7_reserved_name_never_returned_witness :
    getWtfConfigurations fsC3w [] "_retail_" = .ok wtfListC3 ∧
    ((⟨"ACC1", "Realm-A", "Mage"⟩ : Wtf) ∈ wtfListC3) ∧
    (["_retail_", "WTF", "Account", "SavedVariables"] ∈ fsC3w.dirs) ∧
    (("ACC1" : String) ≠ savedVariablesName ∧ ("Realm-A" : String) ≠ savedVariablesName) :=
  ⟨rfl, by decide, by decide,
    claim_C7_reserved_name_never_returned fsC3w [] "_retail_" wtfListC3 rfl
      ⟨"ACC1", "Realm-A", "Mage"⟩ (by decide)⟩

theorem isPrefixOf_rfl (p : FsPath) : p.isPrefixOf p = true := by
  simpa using isPrefixOf_append_self p []

theorem isPrefixOf_trans {p q s : FsPath} (h1 : p.isPrefixOf q = true)
    (h2 : q.isPrefixOf s = true) : p.isPrefixOf s = true := by
  rcases (isPrefixOf_iff_exists p q).1 h1 with ⟨t, rfl⟩
  rcases (isPrefixOf_iff_exists _ s).1 h2 with ⟨u, rfl⟩
  simpa [List.append_assoc] using isPrefixOf_append_self p (t ++ u)

theorem pre_unique {p p' q : FsPath} (h1 : p.isPrefixOf q = true)
    (h2 : p'.isPrefixOf q = true) (hlen : p.length = p'.length) : p = p' := by
  rcases (isPrefixOf_iff_exists p q).1 h1 with ⟨t, rfl⟩
  rcases (isPrefixOf_iff_exists p' (p ++ t)).1 h2 with ⟨t', he⟩
  exact (List.append_inj he.symm hlen.symm).1.symm

theorem append_singleton_ne {p q : FsPath} {a b : String} (h : a ≠ b) :
    p ++ [a] ≠ q ++ [b] := by
  intro he
  have hl := congrArg List.getLast? he
  simp only [List.getLast?_concat] at hl
  exact h (Option.some.inj hl)

theorem writeFile_dirs (fs : FS) (p : FsPath) (c : List Char) :
    (fs.writeFile p c).dirs = fs.dirs := by
  unfold FS.writeFile
  split <;> rfl

theorem writeFile_readOnly (fs : FS) (p : FsPath) (c : List Char) :
    (fs.writeFile p c).readOnly = fs.readOnly := by
  unfold FS.writeFile
  split <;> rfl

theorem eraseFile_dirs (fs : FS) (p : FsPath) : (fs.eraseFile p).dirs = fs.dirs := rfl

theorem eraseFile_readOnly (fs : FS) (p : FsPath) : (fs.eraseFile p).readOnly = fs.readOnly := rfl

theorem find?_update_self (l : List (FsPath × List Char)) (p : FsPath) (c : List Char)
    (h : (l.find? (fun e => e.1 == p)).isSome = true) :
    (l.map (fun e => if e.1 == p then (p, c) else e)).find? (fun e => e.1 == p) = some (p, c) := by
  induction l with
  | nil => simp at h
  | cons e l ih =>
    cases hb : (e.1 == p) with
    | true =>
      have he : e.1 = p := by simpa using hb
      simp [List.find?, hb, he]
    | false =>
      simp only [List.find?, hb] at h
      simp only [List.map, List.find?, hb, Bool.false_eq_true, if_false]
      exact ih h

theorem find?_update_ne (l : List (FsPath × List Char)) (p q : FsPath) (c : List Char)
    (hne : q ≠ p) :
    (l.map (fun e => if e.1 == p then (p, c) else e)).find? (fun e => e.1 == q) =
      l.find? (fun e => e.1 == q) := by
  induction l with
  | nil => rfl
  | cons e l ih =>
    cases hb : (e.1 == p) with
    | true =>
      have he : e.1 = p := by simpa using hb
      have hq : (p == q) = false := by
        simp only [beq_eq_false_iff_ne, ne_eq]
        exact fun h => hne h.symm
      have hq2 : (e.1 == q) = false := by
        simp only [he, beq_eq_false_iff_ne, ne_eq]
        exact fun h => hne h.symm
      simp only [List.map, List.find?, hb, if_true, hq, hq2]
      exact ih
    | false =>
      simp only [List.map, List.find?, hb, Bool.false_eq_true, if_false]
      cases hq : (e.1 == q) with
      | true => simp only [List.find?, hq]
      | false =>
        simp only [List.find?, hq]
        exact ih

theorem find?_append_of_none {α : Type} (l₁ l₂ : List α) (f : α → Bool)
    (h : l₁.find? f = none) : (l₁ ++ l₂).find? f = l₂.find? f := by
  induction l₁ with
  | nil => rfl
  | cons e l ih =>
    simp only [List.find?] at h ⊢
    cases hf : f e with
    | true => rw [hf] at h; cases h
    | false => rw [hf] at h; exact ih h

theorem readFile_writeFile_self (fs : FS) (p : FsPath) (c : List Char) :
    (fs.writeFile p c).readFile p = some c := by
  unfold FS.writeFile
  by_cases h : fs.hasFile p
  · rw [if_pos h]
    unfold FS.hasFile FS.readFile at h
    unfold FS.readFile
    simp only
    rw [find?_update_self fs.files p c (by simpa using h)]
    rfl
  · rw [if_neg h]
    unfold FS.hasFile FS.readFile at h
    unfold FS.readFile
    simp only
    have hn : fs.files.find? (fun e => e.1 == p) = none := by
      rcases hf : fs.files.find? (fun e => e.1 == p) with _ | e
      · exact hf
      · rw [hf] at h; simp at h
    rw [find?_append_of_none _ _ _ hn]
    simp [List.find?]

theorem readFile_writeFile_ne (fs : FS) (p q : FsPath) (c : List Char) (hne : q ≠ p) :
    (fs.writeFile p c).readFile q = fs.readFile q := by
  unfold FS.writeFile
  by_cases h : fs.hasFile p
  · rw [if_pos h]
    unfold FS.readFile
    simp only
    rw [find?_update_ne fs.files p q c hne]
  · rw [if_neg h]
    unfold FS.readFile
    simp only
    rcases hf : fs.files.find? (fun e => e.1 == q) with _ | e
    · rw [find?_append_of_none _ _ _ hf]
      have hb : (p == q) = false := by
        simp only [beq_eq_false_iff_ne, ne_eq]
        exact fun h => hne h.symm
      simp [List.find?, hb, hf]
    · rw [List.find?_append, hf]
      rfl

theorem find?_filter_out (l : List (FsPath × List Char)) (p q : FsPath) (hne : q ≠ p) :
    (l.filter (fun e => !(e.1 == p))).find? (fun e => e.1 == q) =
      l.find? (fun e => e.1 == q) := by
  induction l with
  | nil => rfl
  | cons e l ih =>
    cases hb : (e.1 == p) with
    | true =>
      have he : e.1 = p := by simpa using hb
      have h2 : (e.1 == q) = false := by
        simp only [he, beq_eq_false_iff_ne, ne_eq]
        exact fun h => hne h.symm
      simp only [List.filter, hb, Bool.not_true, List.find?, h2]
      exact ih
    | false =>
      simp only [List.filter, hb, Bool.not_false, List.find?]
      cases hq : (e.1 == q) with
      | true => simp only [hq]
      | false =>
        simp only [hq]
        exact ih

theorem find?_filter_self (l : List (FsPath × List Char)) (p : FsPath) :
    (l.filter (fun e => !(e.1 == p))).find? (fun e => e.1 == p) = none := by
  induction l with
  | nil => rfl
  | cons e l ih =>
    cases hb : (e.1 == p) with
    | true =>
      simp only [List.filter, hb, Bool.not_true]
      exact ih
    | false =>
      simp only [List.filter, hb, Bool.not_false, List.find?, hb]
      exact ih

theorem readFile_eraseFile_self (fs : FS) (p : FsPath) :
    (fs.eraseFile p).readFile p = none := by
  unfold FS.eraseFile FS.readFile
  simp only
  rw [find?_filter_self]
  rfl

theorem readFile_eraseFile_ne (fs : FS) (p q : FsPath) (hne : q ≠ p) :
    (fs.eraseFile p).readFile q = fs.readFile q := by
  unfold FS.eraseFile FS.readFile
  simp only
  rw [find?_filter_out fs.files p q hne]

theorem TreeWrites.trans {r : FsPath} {a b c : FS}
    (h1 : TreeWrites r a b) (h2 : TreeWrites r b c) : TreeWrites r a c := by
  induction h2 with
  | refl => exact h1
  | write fs' p cc hp h ih => exact .write _ _ p cc hp ih
  | erase fs' p hp h ih => exact .erase _ _ p hp ih

theorem TreeWrites.dirs_eq {r : FsPath} {a b : FS} (h : TreeWrites r a b) : b.dirs = a.dirs := by
  induction h with
  | refl => rfl
  | write fs' p c hp h ih => rw [writeFile_dirs]; exact ih
  | erase fs' p hp h ih => rw [eraseFile_dirs]; exact ih

theorem TreeWrites.readOnly_eq {r : FsPath} {a b : FS} (h : TreeWrites r a b) :
    b.readOnly = a.readOnly := by
  induction h with
  | refl => rfl
  | write fs' p c hp h ih => rw [writeFile_readOnly]; exact ih
  | erase fs' p hp h ih => rw [eraseFile_readOnly]; exact ih

theorem TreeWrites.readFile_outside {r : FsPath} {a b : FS} (h : TreeWrites r a b)
    (q : FsPath) (hq : ¬ r.isPrefixOf q = true) : b.readFile q = a.readFile q := by
  induction h with
  | refl => rfl
  | write fs' p c hp h ih =>
    rw [readFile_writeFile_ne _ _ _ _ (fun he => hq (by rw [he]; exact hp))]
    exact ih
  | erase fs' p hp h ih =>
    rw [readFile_eraseFile_ne _ _ _ (fun he => hq (by rw [he]; exact hp))]
    exact ih

theorem writeFileE_ok {fs fs' : FS} {p : FsPath} {c : List Char}
    (h : fs.writeFileE p c = .ok fs') : fs' = fs.writeFile p c := by
  unfold FS.writeFileE at h
  split at h
  · cases h
  · split at h
    · cases h
    · exact (Except.ok.inj h).symm

theorem copyFile_ok {fs fs' : FS} {src dst : FsPath}
    (h : copyFile fs src dst = .ok fs') :
    ∃ data, fs.readFile src = some data ∧ fs' = fs.writeFile dst data := by
  unfold copyFile at h
  rcases hr : fs.readFile src with _ | data <;> rw [hr] at h
  · cases h
  · exact ⟨data, rfl, writeFileE_ok h⟩

theorem remove_ok {fs fs' : FS} {p : FsPath} (h : fs.remove p = .ok fs') :
    fs' = fs.eraseFile p := by
  unfold FS.remove at h
  rcases hr : fs.readFile p with _ | d <;> rw [hr] at h
  · cases h
  · by_cases hro : fs.readOnly.contains p = true
    · rw [if_pos hro] at h; cases h
    · rw [if_neg hro] at h; exact (Except.ok.inj h).symm

theorem copyLoop_treeWrites (srcB dstB : FsPath) (fs : FS) (names : List String)
    (r : FsPath) (hr : r.isPrefixOf dstB = true) :
    TreeWrites r fs ((copyLoop srcB dstB fs names).fs) := by
  induction names generalizing fs with
  | nil => exact .refl fs
  | cons n rest ih =>
    unfold copyLoop
    rcases hcf : copyFile fs (srcB ++ [n]) (dstB ++ [n]) with m | fs2
    · exact .refl fs
    · rcases copyFile_ok hcf with ⟨data, _, rfl⟩
      have h1 : TreeWrites r fs (fs.writeFile (dstB ++ [n]) data) :=
        .write fs fs (dstB ++ [n]) data
          (isPrefixOf_trans hr (isPrefixOf_append_self dstB [n])) (.refl fs)
      exact h1.trans (ih _)

theorem copySavedVariables_treeWrites (fs : FS) (srcB dstB : FsPath)
    (r : FsPath) (hr : r.isPrefixOf dstB = true) :
    TreeWrites r fs ((copySavedVariables fs srcB dstB).fs) := by
  unfold copySavedVariables
  rcases hrd : fs.readDir (srcB ++ [savedVariablesName]) with _ | entries
  · exact .refl fs
  · exact copyLoop_treeWrites _ _ fs _ r
      (isPrefixOf_trans hr (isPrefixOf_append_self dstB [savedVariablesName]))

theorem substStep_fs (srcW dstW : Wtf) (fs : FS) (q : FsPath) :
    (substStep srcW dstW fs q).fs = fs ∨
      ∃ c, (substStep srcW dstW fs q).fs = fs.writeFile q c := by
  unfold substStep
  split
  · rcases hr : fs.readFile q with _ | data <;> dsimp only
    · exact .inl rfl
    · rcases hw : fs.writeFileE q (substituteLua srcW dstW data) with m | fs2 <;> dsimp only
      · exact .inl rfl
      · exact .inr ⟨substituteLua srcW dstW data, writeFileE_ok hw⟩
  · exact .inl rfl

theorem andThen_treeWrites {r : FsPath} {fs : FS} {o : Outcome} {f : FS → Outcome}
    (h1 : TreeWrites r fs o.fs) (h2 : ∀ g, TreeWrites r g ((f g).fs)) :
    TreeWrites r fs ((o.andThen f).fs) := by
  cases o with
  | ok g => exact TreeWrites.trans h1 (h2 g)
  | fatal m g => exact h1

theorem substFold_treeWrites (srcW dstW : Wtf) (fs : FS) (l : List FsPath)
    (r : FsPath) (hl : ∀ q ∈ l, r.isPrefixOf q = true) :
    TreeWrites r fs ((substFold srcW dstW fs l).fs) := by
  induction l generalizing fs with
  | nil => exact .refl fs
  | cons q qs ih =>
    unfold substFold
    have hstep : TreeWrites r fs ((substStep srcW dstW fs q).fs) := by
      rcases substStep_fs srcW dstW fs q with h | ⟨c, h⟩
      · rw [h]; exact .refl fs
      · rw [h]; exact .write fs fs q c (hl q (List.mem_cons_self _ _)) (.refl fs)
    exact andThen_treeWrites hstep
      (fun g => ih g (fun p hp => hl p (List.mem_cons_of_mem _ hp)))

theorem walkList_pre (fs : FS) (r : FsPath) (q : FsPath) (hq : q ∈ walkList fs r) :
    r.isPrefixOf q = true := by
  unfold walkList at hq
  rcases List.mem_append.1 hq with h | h
  · exact (List.mem_filter.1 h).2
  · exact (List.mem_filter.1 h).2

theorem substPass_treeWrites (srcW dstW : Wtf) (fs : FS) (r : FsPath) :
    TreeWrites r fs ((substPass srcW dstW fs r).fs) :=
  substFold_treeWrites srcW dstW fs (walkList fs r) r (walkList_pre fs r)

theorem removeCache_treeWrites (fs : FS) (p : FsPath) (r : FsPath)
    (hp : r.isPrefixOf p = true) : TreeWrites r fs ((removeCache fs p).fs) := by
  unfold removeCache
  rcases hr : fs.remove p with m | fs2
  · dsimp only
    split <;> exact .refl fs
  · dsimp only [Outcome.fs]
    rw [remove_ok hr]
    exact .erase fs fs p hp (.refl fs)

theorem migrate_treeWrites (fs : FS) (root : FsPath) (srcT dstT : CopyTarget) :
    TreeWrites (wtfAccountPath root dstT) fs ((migrate fs root srcT dstT).fs) := by
  unfold migrate
  have hA : (wtfAccountPath root dstT).isPrefixOf (wtfAccountPath root dstT) = true :=
    isPrefixOf_rfl _
  have hCp : (wtfAccountPath root dstT).isPrefixOf (wtfCharacterPath root dstT) = true := by
    unfold wtfCharacterPath
    exact isPrefixOf_append_self _ _
  refine andThen_treeWrites (copyLoop_treeWrites _ _ fs _ _ hA) (fun g1 => ?_)
  refine andThen_treeWrites (copyLoop_treeWrites _ _ g1 _ _ hCp) (fun g2 => ?_)
  refine andThen_treeWrites (copySavedVariables_treeWrites g2 _ _ _ hA) (fun g3 => ?_)
  refine andThen_treeWrites (copySavedVariables_treeWrites g3 _ _ _ hCp) (fun g4 => ?_)
  refine andThen_treeWrites (substPass_treeWrites _ _ g4 _) (fun g5 => ?_)
  refine andThen_treeWrites
    (removeCache_treeWrites g5 _ _ (isPrefixOf_trans hA (isPrefixOf_append_self _ _)))
    (fun g6 => ?_)
  exact removeCache_treeWrites g6 _ _ (isPrefixOf_trans hCp (isPrefixOf_append_self _ _))

/-- C10: with distinct source and destination account paths, a migration
run (successful or fatally aborted) leaves every file under the source
account tree byte-for-byte unchanged and the directory set untouched:
every copy destination, substitution write and cache deletion targets a
destination-side path. -/
theorem claim_C10_source_tree_unchanged (fs : FS) (root : FsPath) (srcT dstT : CopyTarget)
    (hne : wtfAccountPath root dstT ≠ wtfAccountPath root srcT)
    (q : FsPath) (hq : (wtfAccountPath root srcT).isPrefixOf q = true) :
    ((migrate fs root srcT dstT).fs).readFile q = fs.readFile q ∧
    ((migrate fs root srcT dstT).fs).dirs = fs.dirs := by
  have htw := migrate_treeWrites fs root srcT dstT
  refine ⟨htw.readFile_outside q ?_, htw.dirs_eq⟩
  intro hdq
  have hlen : (wtfAccountPath root dstT).length = (wtfAccountPath root srcT).length := by
    unfold wtfAccountPath
    simp
  exact hne (pre_unique hdq hq hlen)

/-- Witness for C10: on the C1 scenario the source data file and the
directory set are unchanged by the run. -/
theorem claim_C10_source_tree_unchanged_witness :
    (wtfAccountPath [] dstT1 ≠ wtfAccountPath [] srcT1) ∧
    ((wtfAccountPath [] srcT1).isPrefixOf (srcA1 ++ ["SavedVariables", "Data.lua"]) = true) ∧
    (((migrate fsC1 [] srcT1 dstT1).fs).readFile (srcA1 ++ ["SavedVariables", "Data.lua"]) =
      fsC1.readFile (srcA1 ++ ["SavedVariables", "Data.lua"])) ∧
    ((migrate fsC1 [] srcT1 dstT1).fs).dirs = fsC1.dirs :=
  ⟨by decide, by decide,
   (claim_C10_source_tree_unchanged fsC1 [] srcT1 dstT1 (by decide)
     (srcA1 ++ ["SavedVariables", "Data.lua"]) (by decide)).1,
   (claim_C10_source_tree_unchanged fsC1 [] srcT1 dstT1 (by decide)
     (srcA1 ++ ["SavedVariables", "Data.lua"]) (by decide)).2⟩

/-- C5: when the source account's `config-cache.wtf` is missing (the
second artifact of the fixed account-level list) while `bindings-cache.wtf`
exists and its destination is writable, the migration aborts fatally during
the first phase: the final state contains exactly the one file already
copied (the destination `bindings-cache.wtf`, which remains present, with
the source bytes) and nothing else is touched, so no later phase ran and no
rollback happened. -/
theorem claim_C5_missing_source_artifact_aborts (fs : FS) (root : FsPath)
    (srcT dstT : CopyTarget) (b : List Char)
    (hb : fs.readFile (wtfAccountPath root srcT ++ ["bindings-cache.wtf"]) = some b)
    (hc : fs.readFile (wtfAccountPath root srcT ++ ["config-cache.wtf"]) = none)
    (hd : (wtfAccountPath root dstT ++ ["bindings-cache.wtf"]) ∉ fs.dirs)
    (hro : (wtfAccountPath root dstT ++ ["bindings-cache.wtf"]) ∉ fs.readOnly) :
    migrate fs root srcT dstT =
      .fatal msgOpenNoEnt
        (fs.writeFile (wtfAccountPath root dstT ++ ["bindings-cache.wtf"]) b) ∧
    (fs.writeFile (wtfAccountPath root dstT ++ ["bindings-cache.wtf"]) b).readFile
      (wtfAccountPath root dstT ++ ["bindings-cache.wtf"]) = some b ∧
    (∀ q, q ≠ wtfAccountPath root dstT ++ ["bindings-cache.wtf"] →
      (fs.writeFile (wtfAccountPath root dstT ++ ["bindings-cache.wtf"]) b).readFile q =
        fs.readFile q) := by
  have h1 : fs.dirs.contains (wtfAccountPath root dstT ++ ["bindings-cache.wtf"]) = false := by
    simpa using hd
  have h2 : fs.readOnly.contains (wtfAccountPath root dstT ++ ["bindings-cache.wtf"]) = false := by
    simpa using hro
  have hwE : fs.writeFileE (wtfAccountPath root dstT ++ ["bindings-cache.wtf"]) b =
      .ok (fs.writeFile (wtfAccountPath root dstT ++ ["bindings-cache.wtf"]) b) := by
    unfold FS.writeFileE
    simp only [h1, h2, Bool.false_eq_true, if_false]
  have hcf1 : copyFile fs (wtfAccountPath root srcT ++ ["bindings-cache.wtf"])
      (wtfAccountPath root dstT ++ ["bindings-cache.wtf"]) = .ok
      (fs.writeFile (wtfAccountPath root dstT ++ ["bindings-cache.wtf"]) b) := by
    unfold copyFile
    rw [hb]
    exact hwE
  have hrc : (fs.writeFile (wtfAccountPath root dstT ++ ["bindings-cache.wtf"]) b).readFile
      (wtfAccountPath root srcT ++ ["config-cache.wtf"]) = none := by
    rw [readFile_writeFile_ne _ _ _ _ (append_singleton_ne (by decide))]
    exact hc
  have hcf2 : copyFile (fs.writeFile (wtfAccountPath root dstT ++ ["bindings-cache.wtf"]) b)
      (wtfAccountPath root srcT ++ ["config-cache.wtf"])
      (wtfAccountPath root dstT ++ ["config-cache.wtf"]) = .error msgOpenNoEnt := by
    unfold copyFile
    rw [hrc]
  have hloop : copyLoop (wtfAccountPath root srcT) (wtfAccountPath root dstT) fs
      accountFilesToCopy = .fatal msgOpenNoEnt
      (fs.writeFile (wtfAccountPath root dstT ++ ["bindings-cache.wtf"]) b) := by
    unfold accountFilesToCopy copyLoop
    rw [hcf1]
    dsimp only
    unfold copyLoop
    rw [hcf2]
  refine ⟨?_, readFile_writeFile_self _ _ _,
    fun q hq => readFile_writeFile_ne _ _ _ _ hq⟩
  unfold migrate
  rw [hloop]
  rfl

/-- Witness for C5: on the concrete `fsC5` the missing `config-cache.wtf`
aborts the run right after the first copy. -/
theorem claim_C5_missing_source_artifact_aborts_witness :
    fsC5.readFile (wtfAccountPath [] srcT5 ++ ["bindings-cache.wtf"]) = some ("b".data) ∧
    fsC5.readFile (wtfAccountPath [] srcT5 ++ ["config-cache.wtf"]) = none ∧
    (migrate fsC5 [] srcT5 dstT5 =
      .fatal msgOpenNoEnt
        (fsC5.writeFile (wtfAccountPath [] dstT5 ++ ["bindings-cache.wtf"]) ("b".data)) ∧
     (fsC5.writeFile (wtfAccountPath [] dstT5 ++ ["bindings-cache.wtf"]) ("b".data)).readFile
       (wtfAccountPath [] dstT5 ++ ["bindings-cache.wtf"]) = some ("b".data) ∧
     (∀ q, q ≠ wtfAccountPath [] dstT5 ++ ["bindings-cache.wtf"] →
       (fsC5.writeFile (wtfAccountPath [] dstT5 ++ ["bindings-cache.wtf"]) ("b".data)).readFile q =
         fsC5.readFile q)) :=
  ⟨rfl, rfl,
    claim_C5_missing_source_artifact_aborts fsC5 [] srcT5 dstT5 ("b".data) rfl rfl
      (by decide) (by decide)⟩

theorem andThen_eq_ok {o : Outcome} {f : FS → Outcome} {r : FS} :
    o.andThen f = .ok r ↔ ∃ m, o = .ok m ∧ f m = .ok r := by
  cases o with
  | ok g =>
    constructor
    · intro h
      exact ⟨g, rfl, h⟩
    · rintro ⟨m, hm, hf⟩
      injection hm with hm
      subst hm
      exact hf
  | fatal m g =>
    constructor
    · intro h
      cases h
    · rintro ⟨m', hm, _⟩
      cases hm

theorem writeFileE_ok_full {fs fs' : FS} {p : FsPath} {c : List Char}
    (h : fs.writeFileE p c = .ok fs') :
    fs' = fs.writeFile p c ∧ fs.dirs.contains p = false ∧ fs.readOnly.contains p = false := by
  unfold FS.writeFileE at h
  by_cases h1 : fs.dirs.contains p = true
  · rw [if_pos h1] at h; cases h
  · rw [if_neg h1] at h
    by_cases h2 : fs.readOnly.contains p = true
    · rw [if_pos h2] at h; cases h
    · rw [if_neg h2] at h
      exact ⟨(Except.ok.inj h).symm, Bool.eq_false_iff.2 h1, Bool.eq_false_iff.2 h2⟩

theorem copyFile_ok_full {fs fs' : FS} {src dst : FsPath}
    (h : copyFile fs src dst = .ok fs') :
    ∃ data, fs.readFile src = some data ∧ fs' = fs.writeFile dst data ∧
      fs.dirs.contains dst = false := by
  unfold copyFile at h
  rcases hr : fs.readFile src with _ | data <;> rw [hr] at h
  · cases h
  · rcases writeFileE_ok_full h with ⟨h1, h2, _⟩
    exact ⟨data, rfl, h1, h2⟩

theorem readFile_some_mem {fs : FS} {q : FsPath} {d : List Char}
    (h : fs.readFile q = some d) : ∃ e ∈ fs.files, e.1 = q ∧ e.2 = d := by
  unfold FS.readFile at h
  rcases hf : fs.files.find? (fun e => e.1 == q) with _ | e <;> rw [hf] at h
  · cases h
  · have he := List.mem_of_find?_eq_some hf
    have hkey := List.find?_some hf
    refine ⟨e, he, by simpa using hkey, ?_⟩
    injection h

theorem readFile_none_iff {fs : FS} {q : FsPath} :
    fs.readFile q = none ↔ q ∉ fs.fileKeys := by
  unfold FS.readFile FS.fileKeys
  constructor
  · intro h hmem
    rcases List.mem_map.1 hmem with ⟨e, he, hkey⟩
    rcases hf : fs.files.find? (fun e => e.1 == q) with _ | e'
    · have := List.find?_eq_none.1 hf e he
      simp [hkey] at this
    · rw [hf] at h
      cases h
  · intro hmem
    rcases hf : fs.files.find? (fun e => e.1 == q) with _ | e'
    · rw [hf]; rfl
    · have he := List.mem_of_find?_eq_some hf
      have hkey : e'.1 = q := by simpa using List.find?_some hf
      exact absurd (List.mem_map.2 ⟨e', he, hkey⟩) hmem

theorem readFile_some_mem_keys {fs : FS} {q : FsPath} {d : List Char}
    (h : fs.readFile q = some d) : q ∈ fs.fileKeys := by
  rcases readFile_some_mem h with ⟨e, he, hkey, _⟩
  exact List.mem_map.2 ⟨e, he, hkey⟩

theorem writeFile_keys_present {fs : FS} {p : FsPath} (c : List Char)
    (h : fs.hasFile p = true) : (fs.writeFile p c).fileKeys = fs.fileKeys := by
  unfold FS.writeFile
  rw [if_pos h]
  unfold FS.fileKeys
  simp only [List.map_map]
  refine List.map_congr_left (fun e _ => ?_)
  by_cases he : e.1 = p
  · simp [Function.comp, he]
  · have hb : (e.1 == p) = false := by
      simp only [beq_eq_false_iff_ne, ne_eq]
      exact he
    simp [Function.comp, hb]

theorem writeFile_keys_absent {fs : FS} {p : FsPath} (c : List Char)
    (h : fs.hasFile p = false) : (fs.writeFile p c).fileKeys = fs.fileKeys ++ [p] := by
  unfold FS.writeFile
  rw [if_neg (by simp [h])]
  unfold FS.fileKeys
  simp

theorem eraseFile_keys {fs : FS} {p : FsPath} :
    (fs.eraseFile p).fileKeys = fs.fileKeys.filter (fun k => !(k == p)) := by
  unfold FS.eraseFile FS.fileKeys
  simp only
  induction fs.files with
  | nil => rfl
  | cons e l ih =>
    cases hb : (e.1 == p) with
    | true => simp only [List.filter, List.map, hb, Bool.not_true]; exact ih
    | false => simp only [List.filter, List.map, hb, Bool.not_false, List.map, ih]

theorem writeFile_WF {fs : FS} {p : FsPath} (c : List Char) (hWF : fs.WF)
    (hp : p ∉ fs.dirs) : (fs.writeFile p c).WF := by
  rcases hWF with ⟨hd, hk, hdisj⟩
  refine ⟨by rw [writeFile_dirs]; exact hd, ?_, ?_⟩
  · by_cases h : fs.hasFile p = true
    · have := writeFile_keys_present c h
      unfold FS.fileKeys at this
      rw [this]
      exact hk
    · have := writeFile_keys_absent c (by simpa using h)
      unfold FS.fileKeys at this
      rw [this]
      have hnp : p ∉ fs.files.map (fun e => e.1) := by
        have hr : fs.readFile p = none := by
          unfold FS.hasFile at h
          rcases hr : fs.readFile p with _ | d
          · rfl
          · rw [hr] at h; simp at h
        have := readFile_none_iff.1 hr
        unfold FS.fileKeys at this
        exact this
      simp [List.nodup_append, hk, hnp]
  · intro d hdm e hem
    rw [writeFile_dirs] at hdm
    unfold FS.writeFile at hem
    by_cases h : fs.hasFile p = true
    · rw [if_pos h] at hem
      simp only at hem
      rcases List.mem_map.1 hem with ⟨e0, he0, rfl⟩
      by_cases he : e0.1 = p
      · have hb : (e0.1 == p) = true := by simpa using he
        simp only [hb, if_true]
        intro hdp
        apply hp
        rw [show d = p from hdp] at hdm
        exact hdm
      · have hb : (e0.1 == p) = false := by
          simp only [beq_eq_false_iff_ne, ne_eq]
          exact he
        simp only [hb, Bool.false_eq_true, if_false]
        exact hdisj d hdm e0 he0
    · rw [if_neg h] at hem
      simp only at hem
      rcases List.mem_append.1 hem with h1 | h1
      · exact hdisj d hdm e h1
      · rcases List.mem_singleton.1 h1 with rfl
        intro hdp
        apply hp
        rw [show d = p from hdp] at hdm
        exact hdm

theorem eraseFile_WF {fs : FS} {p : FsPath} (hWF : fs.WF) : (fs.eraseFile p).WF := by
  rcases hWF with ⟨hd, hk, hdisj⟩
  refine ⟨hd, ?_, ?_⟩
  · have := @eraseFile_keys fs p
    unfold FS.fileKeys at this
    rw [this]
    exact List.Nodup.filter _ hk
  · intro d hdm e hem
    unfold FS.eraseFile at hem
    exact hdisj d hdm e (List.mem_of_mem_filter hem)

theorem substStep_ok_WF {srcW dstW : Wtf} {fs g : FS} {q : FsPath}
    (h : substStep srcW dstW fs q = .ok g) (hWF : fs.WF) : g.WF := by
  unfold substStep at h
  split at h
  · rcases hr : fs.readFile q with _ | data <;> rw [hr] at h <;> dsimp only at h
    · cases h
    · rcases hw : fs.writeFileE q (substituteLua srcW dstW data) with m | fs2 <;>
        rw [hw] at h
      · injection h with h
        subst h
        exact hWF
      · injection h with h
        subst h
        rcases writeFileE_ok_full hw with ⟨rfl, hdc, _⟩
        exact writeFile_WF _ hWF (by simpa using hdc)
  · injection h with h
    subst h
    exact hWF

theorem substFold_ok_WF {srcW dstW : Wtf} {fs g : FS} {l : List FsPath}
    (h : substFold srcW dstW fs l = .ok g) (hWF : fs.WF) : g.WF := by
  induction l generalizing fs with
  | nil =>
    unfold substFold at h
    injection h with h
    subst h
    exact hWF
  | cons q qs ih =>
    unfold substFold at h
    rcases andThen_eq_ok.1 h with ⟨m, hm, hrest⟩
    exact ih hrest (substStep_ok_WF hm hWF)

theorem copyLoop_ok_WF {srcB dstB : FsPath} {fs g : FS} {names : List String}
    (h : copyLoop srcB dstB fs names = .ok g) (hWF : fs.WF) : g.WF := by
  induction names generalizing fs with
  | nil =>
    unfold copyLoop at h
    injection h with h
    subst h
    exact hWF
  | cons n rest ih =>
    unfold copyLoop at h
    rcases hcf : copyFile fs (srcB ++ [n]) (dstB ++ [n]) with m | fs2 <;> rw [hcf] at h
    · cases h
    · rcases copyFile_ok_full hcf with ⟨v, _, rfl, hdc⟩
      exact ih h (writeFile_WF _ hWF (by simpa using hdc))

theorem copySavedVariables_ok_WF {fs g : FS} {srcB dstB : FsPath}
    (h : copySavedVariables fs srcB dstB = .ok g) (hWF : fs.WF) : g.WF := by
  unfold copySavedVariables at h
  rcases hrd : fs.readDir (srcB ++ [savedVariablesName]) with _ | entries <;> rw [hrd] at h
  · cases h
  · exact copyLoop_ok_WF h hWF

theorem removeCache_ok_WF {fs g : FS} {p : FsPath}
    (h : removeCache fs p = .ok g) (hWF : fs.WF) : g.WF := by
  unfold removeCache at h
  rcases hr : fs.remove p with m | fs2 <;> rw [hr] at h <;> dsimp only at h
  · split at h
    · cases h
    · injection h with h
      subst h
      exact hWF
  · injection h with h
    subst h
    rw [remove_ok hr]
    exact eraseFile_WF hWF

theorem filterMap_map_comm {α β γ δ : Type} (l : List α) (g : α → β) (f : β → Option γ)
    (h : γ → δ) :
    l.filterMap (fun x => (f (g x)).map h) = ((l.map g).filterMap f).map h := by
  induction l with
  | nil => rfl
  | cons x l ih =>
    simp only [List.map, List.filterMap]
    rcases hf : f (g x) with _ | y <;> simp [hf, ih]

theorem filterMap_filter_of_none {α γ : Type} (l : List α) (pr : α → Bool)
    (f : α → Option γ) (hf : ∀ x ∈ l, pr x = false → f x = none) :
    (l.filter pr).filterMap f = l.filterMap f := by
  induction l with
  | nil => rfl
  | cons x l ih =>
    have ih2 := ih (fun y hy => hf y (List.mem_cons_of_mem _ hy))
    cases hp : pr x with
    | true =>
      simp only [List.filter, hp, List.filterMap]
      rcases hfx : f x with _ | y <;> simp [hfx, ih2]
    | false =>
      simp only [List.filter, hp, List.filterMap]
      rw [hf x (List.mem_cons_self _ _) hp]
      exact ih2

theorem fileKeys_writeFile_filterMap {fs : FS} {p q : FsPath} (c : List Char)
    (hq : childName q p = none) :
    ((fs.writeFile p c).fileKeys).filterMap (childName q) =
      fs.fileKeys.filterMap (childName q) := by
  by_cases h : fs.hasFile p = true
  · rw [writeFile_keys_present c h]
  · rw [writeFile_keys_absent c (by simpa using h)]
    simp [List.filterMap_append, hq]

theorem fileKeys_eraseFile_filterMap {fs : FS} {p q : FsPath}
    (hq : childName q p = none) :
    ((fs.eraseFile p).fileKeys).filterMap (childName q) =
      fs.fileKeys.filterMap (childName q) := by
  rw [eraseFile_keys]
  refine filterMap_filter_of_none _ _ _ (fun k _ hk => ?_)
  have hkp : k = p := by simpa using hk
  rw [hkp]
  exact hq

theorem TreeWrites.fileKeys_filterMap_eq {r : FsPath} {a b : FS} (h : TreeWrites r a b)
    (q : FsPath) (hq : ∀ n, ¬ r.isPrefixOf (q ++ [n]) = true) :
    b.fileKeys.filterMap (childName q) = a.fileKeys.filterMap (childName q) := by
  induction h with
  | refl => rfl
  | write fs' p c hp h ih =>
    have hcn : childName q p = none := by
      rcases hcn : childName q p with _ | n
      · rfl
      · have := childName_eq_some.1 hcn
        exact absurd (this ▸ hp) (hq n)
    rw [fileKeys_writeFile_filterMap c hcn]
    exact ih
  | erase fs' p hp h ih =>
    have hcn : childName q p = none := by
      rcases hcn : childName q p with _ | n
      · rfl
      · have := childName_eq_some.1 hcn
        exact absurd (this ▸ hp) (hq n)
    rw [fileKeys_eraseFile_filterMap hcn]
    exact ih

theorem readDir_congr {fsA fsB : FS} (p : FsPath) (hd : fsB.dirs = fsA.dirs)
    (hk : fsB.fileKeys.filterMap (childName p) = fsA.fileKeys.filterMap (childName p)) :
    fsB.readDir p = fsA.readDir p := by
  unfold FS.readDir
  rw [hd]
  by_cases hc : fsA.dirs.contains p = true
  · rw [if_pos hc, if_pos hc]
    have hfB : fsB.files.filterMap (fun e => (childName p e.1).map (fun n => ⟨n, false⟩)) =
        (fsB.fileKeys.filterMap (childName p)).map (fun n => (⟨n, false⟩ : DirEntry)) :=
      filterMap_map_comm fsB.files (fun e => e.1) (childName p) _
    have hfA : fsA.files.filterMap (fun e => (childName p e.1).map (fun n => ⟨n, false⟩)) =
        (fsA.fileKeys.filterMap (childName p)).map (fun n => (⟨n, false⟩ : DirEntry)) :=
      filterMap_map_comm fsA.files (fun e => e.1) (childName p) _
    rw [hfB, hfA, hk]
  · rw [if_neg hc, if_neg hc]

theorem filterMap_map_opt {α γ δ : Type} (l : List α) (f : α → Option γ) (h : γ → δ) :
    l.filterMap (fun x => (f x).map h) = (l.filterMap f).map h := by
  induction l with
  | nil => rfl
  | cons x l ih =>
    simp only [List.filterMap]
    rcases hf : f x with _ | y <;> simp [hf, ih]

theorem map_name_mk_true (L : List String) :
    (L.map (fun n => (⟨n, true⟩ : DirEntry))).map (fun e => e.name) = L := by
  induction L with
  | nil => rfl
  | cons x l ih =>
    simp only [List.map]
    rw [ih]

theorem map_name_mk_false (L : List String) :
    (L.map (fun n => (⟨n, false⟩ : DirEntry))).map (fun e => e.name) = L := by
  induction L with
  | nil => rfl
  | cons x l ih =>
    simp only [List.map]
    rw [ih]

theorem readDir_names_nodup {fs : FS} {p : FsPath} {es : List DirEntry}
    (hWF : fs.WF) (h : fs.readDir p = some es) : (es.map (fun e => e.name)).Nodup := by
  rcases hWF with ⟨hd, hk, hdisj⟩
  unfold FS.readDir at h
  by_cases hc : fs.dirs.contains p = true
  · rw [if_pos hc] at h
    injection h with h
    subst h
    rw [List.map_append]
    have hinj : ∀ (a a' : FsPath) (b : String), b ∈ childName p a → b ∈ childName p a' → a = a' := by
      intro a a' b hb hb'
      rw [Option.mem_def] at hb hb'
      rw [childName_eq_some.1 hb, childName_eq_some.1 hb']
    have h1 : (fs.dirs.filterMap (fun d => (childName p d).map
        (fun n => (⟨n, true⟩ : DirEntry)))).map (fun e => e.name) =
        fs.dirs.filterMap (childName p) := by
      rw [filterMap_map_opt fs.dirs (childName p) (fun n => (⟨n, true⟩ : DirEntry)),
        map_name_mk_true]
    have h2 : (fs.files.filterMap (fun e => (childName p e.1).map
        (fun n => (⟨n, false⟩ : DirEntry)))).map (fun e => e.name) =
        fs.fileKeys.filterMap (childName p) := by
      rw [filterMap_map_comm fs.files (fun e => e.1) (childName p)
        (fun n => (⟨n, false⟩ : DirEntry)), map_name_mk_false]
      rfl
    rw [h1, h2]
    rw [List.nodup_append]
    refine ⟨List.Nodup.filterMap hinj hd, List.Nodup.filterMap hinj (by
      unfold FS.fileKeys
      exact hk), ?_⟩
    intro n hn1 hn2
    rcases List.mem_filterMap.1 hn1 with ⟨d, hdm, hdn⟩
    rcases List.mem_filterMap.1 hn2 with ⟨k, hkm, hkn⟩
    have hdq := childName_eq_some.1 hdn
    have hkq := childName_eq_some.1 hkn
    rcases List.mem_map.1 hkm with ⟨e, hem, rfl⟩
    exact hdisj d hdm e hem (by rw [hdq, hkq])
  · rw [if_neg hc] at h
    cases h

theorem mem_walkList {fs : FS} {r q : FsPath} :
    q ∈ walkList fs r ↔ (r.isPrefixOf q = true ∧ (q ∈ fs.dirs ∨ q ∈ fs.fileKeys)) := by
  unfold walkList FS.fileKeys
  simp only [List.mem_append, List.mem_filter]
  constructor
  · rintro (⟨h1, h2⟩ | ⟨h1, h2⟩)
    · exact ⟨h2, .inl h1⟩
    · exact ⟨h2, .inr h1⟩
  · rintro ⟨h1, h2 | h2⟩
    · exact .inl ⟨h2, h1⟩
    · exact .inr ⟨h2, h1⟩

theorem walkList_nodup {fs : FS} {r : FsPath} (hWF : fs.WF) : (walkList fs r).Nodup := by
  rcases hWF with ⟨hd, hk, hdisj⟩
  unfold walkList
  rw [List.nodup_append]
  refine ⟨List.Nodup.filter _ hd, List.Nodup.filter _ hk, ?_⟩
  intro q hq1 hq2
  have h1 := List.mem_of_mem_filter hq1
  have h2 := List.mem_of_mem_filter hq2
  rcases List.mem_map.1 h2 with ⟨e, hem, rfl⟩
  exact hdisj _ h1 e hem rfl

theorem removeCache_ok_char {fs g : FS} {p : FsPath} (h : removeCache fs p = .ok g) :
    g.readFile p = none ∧ (∀ q, q ≠ p → g.readFile q = fs.readFile q) := by
  unfold removeCache at h
  rcases hr : fs.remove p with m | fs2 <;> rw [hr] at h <;> dsimp only at h
  · unfold FS.remove at hr
    rcases hrf : fs.readFile p with _ | d <;> rw [hrf] at hr
    · injection hr with hr
      subst hr
      have hcond : (!(isSubstringOf msgNoSuchFile.data msgRemoveNoEnt.data)) = false := by decide
      rw [hcond] at h
      simp only [Bool.false_eq_true, if_false] at h
      injection h with h
      subst h
      exact ⟨hrf, fun q _ => rfl⟩
    · by_cases hro : fs.readOnly.contains p = true
      · rw [if_pos hro] at hr
        injection hr with hr
        subst hr
        have hcond : (!(isSubstringOf msgNoSuchFile.data msgPermissionDenied.data)) = true := by
          decide
        rw [hcond] at h
        simp at h
      · rw [if_neg hro] at hr
        cases hr
  · injection h with h
    subst h
    rw [remove_ok hr]
    exact ⟨readFile_eraseFile_self fs p, fun q hq => readFile_eraseFile_ne fs p q hq⟩

theorem copyLoop_ok_char {srcB dstB : FsPath} {fs g : FS} {names : List String}
    (h : copyLoop srcB dstB fs names = .ok g) (hnd : names.Nodup)
    (hdisj : ∀ n m : String, n ∈ names → m ∈ names → srcB ++ [n] ≠ dstB ++ [m]) :
    (∀ n ∈ names, ∃ v, fs.readFile (srcB ++ [n]) = some v ∧
      g.readFile (dstB ++ [n]) = some v) ∧
    (∀ q, (∀ n ∈ names, q ≠ dstB ++ [n]) → g.readFile q = fs.readFile q) := by
  induction names generalizing fs with
  | nil =>
    unfold copyLoop at h
    injection h with h
    subst h
    exact ⟨fun n hn => absurd hn (List.not_mem_nil n), fun q _ => rfl⟩
  | cons n rest ih =>
    unfold copyLoop at h
    rcases hcf : copyFile fs (srcB ++ [n]) (dstB ++ [n]) with m | fs2 <;> rw [hcf] at h
    · cases h
    · rcases copyFile_ok_full hcf with ⟨v, hrv, rfl, _⟩
      have hnd2 := (List.nodup_cons.1 hnd).2
      have hnmem := (List.nodup_cons.1 hnd).1
      have ihr := ih h hnd2
        (fun a b ha hb => hdisj a b (List.mem_cons_of_mem _ ha) (List.mem_cons_of_mem _ hb))
      constructor
      · intro m hm
        rcases List.mem_cons.1 hm with rfl | hm'
        · refine ⟨v, hrv, ?_⟩
          rw [ihr.2 _ (fun k hk he =>
            hnmem (by
              have := (List.append_inj he (by rfl)).2
              injection this with hmk
              rw [hmk]
              exact hk))]
          exact readFile_writeFile_self fs _ v
        · rcases ihr.1 m hm' with ⟨vm, hvm, hgm⟩
          refine ⟨vm, ?_, hgm⟩
          rw [readFile_writeFile_ne fs _ _ v
            (hdisj m n (List.mem_cons_of_mem _ hm') (List.mem_cons_self _ _))] at hvm
          exact hvm
      · intro q hq
        rw [ihr.2 q (fun k hk => hq k (List.mem_cons_of_mem _ hk))]
        exact readFile_writeFile_ne fs _ _ v (hq n (List.mem_cons_self _ _))

theorem copySavedVariables_ok_decomp {fs g : FS} {srcB dstB : FsPath}
    (h : copySavedVariables fs srcB dstB = .ok g) :
    ∃ entries, fs.readDir (srcB ++ [savedVariablesName]) = some entries ∧
      copyLoop (srcB ++ [savedVariablesName]) (dstB ++ [savedVariablesName]) fs
        ((entries.map (fun e => e.name)).filter matchesLua) = .ok g := by
  unfold copySavedVariables at h
  rcases hrd : fs.readDir (srcB ++ [savedVariablesName]) with _ | entries <;> rw [hrd] at h
  · cases h
  · exact ⟨entries, rfl, h⟩

theorem substFold_ok_char {srcW dstW : Wtf} {fs g : FS} {l : List FsPath}
    (h : substFold srcW dstW fs l = .ok g) (hnd : l.Nodup) (hWF : fs.WF)
    (hro : fs.readOnly = []) :
    (∀ q, q ∈ l → hasLuaSuffix q = true →
      g.readFile q = (fs.readFile q).map (substituteLua srcW dstW)) ∧
    (∀ q, (q ∉ l ∨ hasLuaSuffix q = false) → g.readFile q = fs.readFile q) := by
  induction l generalizing fs with
  | nil =>
    unfold substFold at h
    injection h with h
    subst h
    exact ⟨fun q hq => absurd hq (List.not_mem_nil q), fun q _ => rfl⟩
  | cons p rest ih =>
    unfold substFold at h
    rcases andThen_eq_ok.1 h with ⟨fsm, hstep, hrest⟩
    have hnd2 := (List.nodup_cons.1 hnd).2
    have hpmem := (List.nodup_cons.1 hnd).1
    by_cases hlua : hasLuaSuffix p = true
    · unfold substStep at hstep
      rw [if_pos hlua] at hstep
      rcases hrp : fs.readFile p with _ | data <;> rw [hrp] at hstep <;> dsimp only at hstep
      · cases hstep
      · have hpd : fs.dirs.contains p = false := by
          have hmem := readFile_some_mem_keys hrp
          rcases hWF with ⟨_, _, hdisj⟩
          rcases List.mem_map.1 hmem with ⟨e, hem, hkey⟩
          rcases hcd : fs.dirs.contains p with _ | _
          · rfl
          · have hpdirs : p ∈ fs.dirs := by
              have : fs.dirs.elem p = true := hcd
              simpa using this
            exact absurd (hkey ▸ hdisj p hpdirs e hem) (by simp)
        have hpro : fs.readOnly.contains p = false := by
          rw [hro]
          rfl
        have hwE : fs.writeFileE p (substituteLua srcW dstW data) =
            .ok (fs.writeFile p (substituteLua srcW dstW data)) := by
          unfold FS.writeFileE
          rw [hpd, hpro]
          simp
        rw [hwE] at hstep
        injection hstep with hstep
        subst hstep
        have hWF2 : (fs.writeFile p (substituteLua srcW dstW data)).WF :=
          writeFile_WF _ hWF (by
            intro hmem
            have : fs.dirs.contains p = true := by simpa using hmem
            rw [hpd] at this
            cases this)
        have hro2 : (fs.writeFile p (substituteLua srcW dstW data)).readOnly = [] := by
          rw [writeFile_readOnly]
          exact hro
        have ihr := ih hrest hnd2 hWF2 hro2
        constructor
        · intro q hq hqlua
          rcases List.mem_cons.1 hq with rfl | hq'
          · rw [ihr.2 q (.inl hpmem), readFile_writeFile_self, hrp]
            rfl
          · have hqp : q ≠ p := fun he => hpmem (he ▸ hq')
            rw [ihr.1 q hq' hqlua, readFile_writeFile_ne fs p q _ hqp]
        · intro q hq
          have hqp : q ≠ p := by
            rcases hq with hq | hq
            · exact fun he => hq (he ▸ List.mem_cons_self _ _)
            · exact fun he => (by rw [he, hlua] at hq; cases hq)
          have : q ∉ rest ∨ hasLuaSuffix q = false := by
            rcases hq with hq | hq
            · exact .inl (fun hmem => hq (List.mem_cons_of_mem _ hmem))
            · exact .inr hq
          rw [ihr.2 q this, readFile_writeFile_ne fs p q _ hqp]
    · unfold substStep at hstep
      rw [if_neg hlua] at hstep
      injection hstep with hstep
      subst hstep
      have ihr := ih hrest hnd2 hWF hro
      constructor
      · intro q hq hqlua
        rcases List.mem_cons.1 hq with rfl | hq'
        · exact absurd hqlua hlua
        · exact ihr.1 q hq' hqlua
      · intro q hq
        refine ihr.2 q ?_
        rcases hq with hq | hq
        · exact .inl (fun hmem => hq (List.mem_cons_of_mem _ hmem))
        · exact .inr hq

theorem migrate_ok_decomp {fs final : FS} {root : FsPath} {srcT dstT : CopyTarget}
    (h : migrate fs root srcT dstT = .ok final) :
    ∃ a1 a2 a3 a4 a5 a6,
      copyLoop (wtfAccountPath root srcT) (wtfAccountPath root dstT) fs
        accountFilesToCopy = .ok a1 ∧
      copyLoop (wtfCharacterPath root srcT) (wtfCharacterPath root dstT) a1
        characterFilesToCopy = .ok a2 ∧
      copySavedVariables a2 (wtfAccountPath root srcT) (wtfAccountPath root dstT) = .ok a3 ∧
      copySavedVariables a3 (wtfCharacterPath root srcT) (wtfCharacterPath root dstT) = .ok a4 ∧
      substPass srcT.wtf dstT.wtf a4 (wtfAccountPath root dstT) = .ok a5 ∧
      removeCache a5 (wtfAccountPath root dstT ++ [cacheFileName]) = .ok a6 ∧
      removeCache a6 (wtfCharacterPath root dstT ++ [cacheFileName]) = .ok final := by
  unfold migrate at h
  rcases andThen_eq_ok.1 h with ⟨a1, h1, h⟩
  rcases andThen_eq_ok.1 h with ⟨a2, h2, h⟩
  rcases andThen_eq_ok.1 h with ⟨a3, h3, h⟩
  rcases andThen_eq_ok.1 h with ⟨a4, h4, h⟩
  rcases andThen_eq_ok.1 h with ⟨a5, h5, h⟩
  rcases andThen_eq_ok.1 h with ⟨a6, h6, h⟩
  exact ⟨a1, a2, a3, a4, a5, a6, h1, h2, h3, h4, h5, h6, h⟩

theorem ne_extend {p q : FsPath} (hne : p ≠ q) (hlen : p.length = q.length)
    {x y : List String} : p ++ x ≠ q ++ y := by
  intro he
  exact hne (List.append_inj he hlen).1

theorem outcome_fs_of_ok {o : Outcome} {g : FS} (h : o = .ok g) : o.fs = g := by
  rw [h]
  rfl

theorem append_suffix_ne_of_length {p : FsPath} {x y : List String}
    (h : x.length ≠ y.length) : p ++ x ≠ p ++ y := by
  intro he
  exact h (by rw [List.append_cancel_left he])

theorem append_singleton_inj {p : FsPath} {a b : String} (h : p ++ [a] = p ++ [b]) : a = b := by
  have := List.append_cancel_left h
  injection this

theorem hasLuaSuffix_append_singleton (p : FsPath) (x : String) :
    hasLuaSuffix (p ++ [x]) = List.isSuffixOf luaExt.data x.data := by
  unfold hasLuaSuffix
  rw [List.getLast?_concat]

/-- C6 (amended): the original claim fails because substitutions can
compound across runs (see the counterexample below).  Amended statement:
when the source and destination account paths differ, the snapshot is
well-formed and fully writable, and after the first run every data file
under the destination account tree is a fixed point of the identity
substitution, then a second identical run leaves every file content
unchanged: the second run re-copies the same source bytes, substitutes
them identically, and rewrites untouched files to themselves. -/
theorem claim_C6_amended_idempotent (fs fs1 fs2 : FS) (root : FsPath)
    (srcT dstT : CopyTarget) (hWF : fs.WF) (hro : fs.readOnly = [])
    (hne : wtfAccountPath root dstT ≠ wtfAccountPath root srcT)
    (h1 : migrate fs root srcT dstT = .ok fs1)
    (h2 : migrate fs1 root srcT dstT = .ok fs2)
    (hfix : ∀ e ∈ fs1.files, (wtfAccountPath root dstT).isPrefixOf e.1 = true →
      hasLuaSuffix e.1 = true → substituteLua srcT.wtf dstT.wtf e.2 = e.2) :
    ∀ q, fs2.readFile q = fs1.readFile q := by
  have hlen : (wtfAccountPath root dstT).length = (wtfAccountPath root srcT).length := by
    unfold wtfAccountPath
    simp
  have hneS : wtfAccountPath root srcT ≠ wtfAccountPath root dstT := fun he => hne he.symm
  have hlenS : (wtfAccountPath root srcT).length = (wtfAccountPath root dstT).length := hlen.symm
  have hdisj2 : ∀ q, (wtfAccountPath root srcT).isPrefixOf q = true →
      ¬ (wtfAccountPath root dstT).isPrefixOf q = true :=
    fun q hs hd => hne (pre_unique hd hs hlen)
  -- full-run frames
  have htw1 : TreeWrites (wtfAccountPath root dstT) fs fs1 := by
    have := migrate_treeWrites fs root srcT dstT
    rw [outcome_fs_of_ok h1] at this
    exact this
  have htw2 : TreeWrites (wtfAccountPath root dstT) fs1 fs2 := by
    have := migrate_treeWrites fs1 root srcT dstT
    rw [outcome_fs_of_ok h2] at this
    exact this
  -- phase decompositions
  obtain ⟨a1, a2, a3, a4, a5, a6, hp1, hp2, hp3, hp4, hp5, hp6, hp7⟩ := migrate_ok_decomp h1
  obtain ⟨b1, b2, b3, b4, b5, b6, hq1, hq2, hq3, hq4, hq5, hq6, hq7⟩ := migrate_ok_decomp h2
  -- prefix facts
  have hprA : (wtfAccountPath root dstT).isPrefixOf (wtfAccountPath root dstT) = true :=
    isPrefixOf_rfl _
  have hprC : (wtfAccountPath root dstT).isPrefixOf (wtfCharacterPath root dstT) = true := by
    unfold wtfCharacterPath
    exact isPrefixOf_append_self _ _
  -- partial frames of run 1 and run 2
  have htA1 : TreeWrites (wtfAccountPath root dstT) fs a1 := by
    have := copyLoop_treeWrites (wtfAccountPath root srcT) (wtfAccountPath root dstT) fs
      accountFilesToCopy _ hprA
    rw [outcome_fs_of_ok hp1] at this
    exact this
  have htA2 : TreeWrites (wtfAccountPath root dstT) fs a2 := by
    refine htA1.trans ?_
    have := copyLoop_treeWrites (wtfCharacterPath root srcT) (wtfCharacterPath root dstT) a1
      characterFilesToCopy _ hprC
    rw [outcome_fs_of_ok hp2] at this
    exact this
  have htA3 : TreeWrites (wtfAccountPath root dstT) fs a3 := by
    refine htA2.trans ?_
    have := copySavedVariables_treeWrites a2 (wtfAccountPath root srcT)
      (wtfAccountPath root dstT) _ hprA
    rw [outcome_fs_of_ok hp3] at this
    exact this
  have htA4 : TreeWrites (wtfAccountPath root dstT) fs a4 := by
    refine htA3.trans ?_
    have := copySavedVariables_treeWrites a3 (wtfCharacterPath root srcT)
      (wtfCharacterPath root dstT) _ hprC
    rw [outcome_fs_of_ok hp4] at this
    exact this
  have htB1 : TreeWrites (wtfAccountPath root dstT) fs1 b1 := by
    have := copyLoop_treeWrites (wtfAccountPath root srcT) (wtfAccountPath root dstT) fs1
      accountFilesToCopy _ hprA
    rw [outcome_fs_of_ok hq1] at this
    exact this
  have htB2 : TreeWrites (wtfAccountPath root dstT) fs1 b2 := by
    refine htB1.trans ?_
    have := copyLoop_treeWrites (wtfCharacterPath root srcT) (wtfCharacterPath root dstT) b1
      characterFilesToCopy _ hprC
    rw [outcome_fs_of_ok hq2] at this
    exact this
  have htB3 : TreeWrites (wtfAccountPath root dstT) fs1 b3 := by
    refine htB2.trans ?_
    have := copySavedVariables_treeWrites b2 (wtfAccountPath root srcT)
      (wtfAccountPath root dstT) _ hprA
    rw [outcome_fs_of_ok hq3] at this
    exact this
  have htB4 : TreeWrites (wtfAccountPath root dstT) fs1 b4 := by
    refine htB3.trans ?_
    have := copySavedVariables_treeWrites b3 (wtfCharacterPath root srcT)
      (wtfCharacterPath root dstT) _ hprC
    rw [outcome_fs_of_ok hq4] at this
    exact this
  -- well-formedness chains
  have wA1 := copyLoop_ok_WF hp1 hWF
  have wA2 := copyLoop_ok_WF hp2 wA1
  have wA3 := copySavedVariables_ok_WF hp3 wA2
  have wA4 := copySavedVariables_ok_WF hp4 wA3
  have hp5' : substFold srcT.wtf dstT.wtf a4
      (walkList a4 (wtfAccountPath root dstT)) = .ok a5 := by
    unfold substPass at hp5
    exact hp5
  have wA5 := substFold_ok_WF hp5' wA4
  have wA6 := removeCache_ok_WF hp6 wA5
  have wFS1 := removeCache_ok_WF hp7 wA6
  have wB1 := copyLoop_ok_WF hq1 wFS1
  have wB2 := copyLoop_ok_WF hq2 wB1
  have wB3 := copySavedVariables_ok_WF hq3 wB2
  have wB4 := copySavedVariables_ok_WF hq4 wB3
  have hq5' : substFold srcT.wtf dstT.wtf b4
      (walkList b4 (wtfAccountPath root dstT)) = .ok b5 := by
    unfold substPass at hq5
    exact hq5
  -- read-only invariants
  have roA4 : a4.readOnly = [] := by rw [htA4.readOnly_eq]; exact hro
  have roFS1 : fs1.readOnly = [] := by rw [htw1.readOnly_eq]; exact hro
  have roB4 : b4.readOnly = [] := by rw [htB4.readOnly_eq]; exact roFS1
  -- name-level disjointness of source and destination paths
  have hdisjAcc : ∀ n m : String, n ∈ accountFilesToCopy → m ∈ accountFilesToCopy →
      wtfAccountPath root srcT ++ [n] ≠ wtfAccountPath root dstT ++ [m] :=
    fun n m _ _ => ne_extend hneS hlenS
  have hdisjChar : ∀ n m : String, n ∈ characterFilesToCopy → m ∈ characterFilesToCopy →
      wtfCharacterPath root srcT ++ [n] ≠ wtfCharacterPath root dstT ++ [m] := by
    intro n m _ _
    unfold wtfCharacterPath
    rw [List.append_assoc, List.append_assoc]
    exact ne_extend hneS hlenS
  have hdisjASV : ∀ n m : String,
      (wtfAccountPath root srcT ++ [savedVariablesName]) ++ [n] ≠
        (wtfAccountPath root dstT ++ [savedVariablesName]) ++ [m] := by
    intro n m
    rw [List.append_assoc, List.append_assoc]
    exact ne_extend hneS hlenS
  have hdisjCSV : ∀ n m : String,
      (wtfCharacterPath root srcT ++ [savedVariablesName]) ++ [n] ≠
        (wtfCharacterPath root dstT ++ [savedVariablesName]) ++ [m] := by
    intro n m
    unfold wtfCharacterPath
    rw [List.append_assoc, List.append_assoc, List.append_assoc, List.append_assoc]
    exact ne_extend hneS hlenS
  -- saved-variables listings agree between the two runs
  obtain ⟨entsA, hrdA, hclA⟩ := copySavedVariables_ok_decomp hp3
  obtain ⟨entsC, hrdC, hclC⟩ := copySavedVariables_ok_decomp hp4
  obtain ⟨entsB, hrdB, hclB⟩ := copySavedVariables_ok_decomp hq3
  obtain ⟨entsD, hrdD, hclD⟩ := copySavedVariables_ok_decomp hq4
  have hsvA : ∀ n, ¬ (wtfAccountPath root dstT).isPrefixOf
      ((wtfAccountPath root srcT ++ [savedVariablesName]) ++ [n]) = true := by
    intro n hd
    refine hdisj2 _ ?_ hd
    rw [List.append_assoc]
    exact isPrefixOf_append_self _ _
  have hsvC : ∀ n, ¬ (wtfAccountPath root dstT).isPrefixOf
      ((wtfCharacterPath root srcT ++ [savedVariablesName]) ++ [n]) = true := by
    intro n hd
    refine hdisj2 _ ?_ hd
    unfold wtfCharacterPath
    rw [List.append_assoc, List.append_assoc]
    exact isPrefixOf_append_self _ _
  have hcongrA : b2.readDir (wtfAccountPath root srcT ++ [savedVariablesName]) =
      a2.readDir (wtfAccountPath root srcT ++ [savedVariablesName]) := by
    refine readDir_congr _ ?_ ?_
    · rw [htB2.dirs_eq, htw1.dirs_eq, htA2.dirs_eq]
    · rw [htB2.fileKeys_filterMap_eq _ hsvA, htw1.fileKeys_filterMap_eq _ hsvA,
        htA2.fileKeys_filterMap_eq _ hsvA]
  have hcongrC : b3.readDir (wtfCharacterPath root srcT ++ [savedVariablesName]) =
      a3.readDir (wtfCharacterPath root srcT ++ [savedVariablesName]) := by
    refine readDir_congr _ ?_ ?_
    · rw [htB3.dirs_eq, htw1.dirs_eq, htA3.dirs_eq]
    · rw [htB3.fileKeys_filterMap_eq _ hsvC, htw1.fileKeys_filterMap_eq _ hsvC,
        htA3.fileKeys_filterMap_eq _ hsvC]
  rw [hcongrA, hrdA] at hrdB
  injection hrdB with hEB
  rw [← hEB] at hclB
  rw [hcongrC, hrdC] at hrdD
  injection hrdD with hED
  rw [← hED] at hclD
  -- copy-phase characterizations
  have ndAcc : accountFilesToCopy.Nodup := by decide
  have ndChar : characterFilesToCopy.Nodup := by decide
  have ndLA : ((entsA.map (fun e => e.name)).filter matchesLua).Nodup :=
    List.Nodup.filter _ (readDir_names_nodup wA2 hrdA)
  have ndLC : ((entsC.map (fun e => e.name)).filter matchesLua).Nodup :=
    List.Nodup.filter _ (readDir_names_nodup wA3 hrdC)
  have cA1 := copyLoop_ok_char hp1 ndAcc hdisjAcc
  have cA2 := copyLoop_ok_char hp2 ndChar hdisjChar
  have cA3 := copyLoop_ok_char hclA ndLA (fun n m _ _ => hdisjASV n m)
  have cA4 := copyLoop_ok_char hclC ndLC (fun n m _ _ => hdisjCSV n m)
  have cB1 := copyLoop_ok_char hq1 ndAcc hdisjAcc
  have cB2 := copyLoop_ok_char hq2 ndChar hdisjChar
  have cB3 := copyLoop_ok_char hclB ndLA (fun n m _ _ => hdisjASV n m)
  have cB4 := copyLoop_ok_char hclD ndLC (fun n m _ _ => hdisjCSV n m)
  -- substitution-pass characterizations
  have sc1 := substFold_ok_char hp5' (walkList_nodup wA4) wA4 roA4
  have sc2 := substFold_ok_char hq5' (walkList_nodup wB4) wB4 roB4
  -- cache-removal characterizations
  have rcA1 := removeCache_ok_char hp6
  have rcA2 := removeCache_ok_char hp7
  have rcB1 := removeCache_ok_char hq6
  have rcB2 := removeCache_ok_char hq7
  -- destination path shapes
  have hdC : ∀ m : String, wtfCharacterPath root dstT ++ [m] =
      wtfAccountPath root dstT ++ ([dstT.wtf.server, dstT.wtf.character] ++ [m]) := by
    intro m
    unfold wtfCharacterPath
    rw [List.append_assoc]
  have hdASV : ∀ m : String, (wtfAccountPath root dstT ++ [savedVariablesName]) ++ [m] =
      wtfAccountPath root dstT ++ ([savedVariablesName] ++ [m]) := by
    intro m
    rw [List.append_assoc]
  have hdCSV : ∀ m : String, (wtfCharacterPath root dstT ++ [savedVariablesName]) ++ [m] =
      wtfAccountPath root dstT ++
        ([dstT.wtf.server, dstT.wtf.character, savedVariablesName] ++ [m]) := by
    intro m
    unfold wtfCharacterPath
    rw [List.append_assoc, List.append_assoc]
    rfl
  intro q
  by_cases hdq : (wtfAccountPath root dstT).isPrefixOf q = true
  case neg => exact htw2.readFile_outside q hdq
  case pos =>
  have hfinish : ∀ v : List Char, a4.readFile q = some v → b4.readFile q = some v →
      q ≠ wtfAccountPath root dstT ++ [cacheFileName] →
      q ≠ wtfCharacterPath root dstT ++ [cacheFileName] →
      fs2.readFile q = fs1.readFile q := by
    intro v ha hb hqA hqC
    by_cases hlua : hasLuaSuffix q = true
    · have hwA : q ∈ walkList a4 (wtfAccountPath root dstT) :=
        mem_walkList.2 ⟨hdq, .inr (readFile_some_mem_keys ha)⟩
      have hwB : q ∈ walkList b4 (wtfAccountPath root dstT) :=
        mem_walkList.2 ⟨hdq, .inr (readFile_some_mem_keys hb)⟩
      have h5a : a5.readFile q = some (substituteLua srcT.wtf dstT.wtf v) := by
        rw [sc1.1 q hwA hlua, ha]
        rfl
      have h5b : b5.readFile q = some (substituteLua srcT.wtf dstT.wtf v) := by
        rw [sc2.1 q hwB hlua, hb]
        rfl
      rw [rcB2.2 q hqC, rcB1.2 q hqA, h5b, rcA2.2 q hqC, rcA1.2 q hqA, h5a]
    · have hlf : hasLuaSuffix q = false := by simpa using hlua
      rw [rcB2.2 q hqC, rcB1.2 q hqA, sc2.2 q (.inr hlf), hb,
        rcA2.2 q hqC, rcA1.2 q hqA, sc1.2 q (.inr hlf), ha]
  by_cases hg1 : ∃ n, n ∈ accountFilesToCopy ∧ q = wtfAccountPath root dstT ++ [n]
  · obtain ⟨n, hn, rfl⟩ := hg1
    obtain ⟨v, hsv1, hgv1⟩ := cA1.1 n hn
    have ha4 : a4.readFile (wtfAccountPath root dstT ++ [n]) = some v := by
      rw [cA4.2 _ (fun m _ => by rw [hdCSV m]; exact append_suffix_ne_of_length (by simp)),
        cA3.2 _ (fun m _ => by rw [hdASV m]; exact append_suffix_ne_of_length (by simp)),
        cA2.2 _ (fun m _ => by rw [hdC m]; exact append_suffix_ne_of_length (by simp))]
      exact hgv1
    obtain ⟨v', hsv2, hgv2⟩ := cB1.1 n hn
    have hsrc : fs1.readFile (wtfAccountPath root srcT ++ [n]) =
        fs.readFile (wtfAccountPath root srcT ++ [n]) :=
      htw1.readFile_outside _ (hdisj2 _ (isPrefixOf_append_self _ _))
    have hvv : v' = v := by
      rw [hsrc, hsv1] at hsv2
      injection hsv2 with hh
      exact hh.symm
    subst hvv
    have hb4 : b4.readFile (wtfAccountPath root dstT ++ [n]) = some v' := by
      rw [cB4.2 _ (fun m _ => by rw [hdCSV m]; exact append_suffix_ne_of_length (by simp)),
        cB3.2 _ (fun m _ => by rw [hdASV m]; exact append_suffix_ne_of_length (by simp)),
        cB2.2 _ (fun m _ => by rw [hdC m]; exact append_suffix_ne_of_length (by simp))]
      exact hgv2
    refine hfinish v' ha4 hb4 ?_ ?_
    · intro he
      have := append_singleton_inj he
      revert hn
      rw [this]
      decide
    · rw [hdC cacheFileName]
      exact append_suffix_ne_of_length (by simp)
  by_cases hg2 : ∃ n, n ∈ characterFilesToCopy ∧ q = wtfCharacterPath root dstT ++ [n]
  · obtain ⟨n, hn, rfl⟩ := hg2
    obtain ⟨v, hsv1, hgv1⟩ := cA2.1 n hn
    rw [cA1.2 _ (fun m _ => by
      simp only [wtfCharacterPath, List.append_assoc]
      exact ne_extend hneS hlenS)] at hsv1
    have ha4 : a4.readFile (wtfCharacterPath root dstT ++ [n]) = some v := by
      rw [cA4.2 _ (fun m _ => by
          simp only [wtfCharacterPath, List.append_assoc]
          exact append_suffix_ne_of_length (by simp)),
        cA3.2 _ (fun m _ => by
          simp only [wtfCharacterPath, List.append_assoc]
          exact append_suffix_ne_of_length (by simp))]
      exact hgv1
    obtain ⟨v', hsv2, hgv2⟩ := cB2.1 n hn
    rw [cB1.2 _ (fun m _ => by
      simp only [wtfCharacterPath, List.append_assoc]
      exact ne_extend hneS hlenS)] at hsv2
    have hsrc : fs1.readFile (wtfCharacterPath root srcT ++ [n]) =
        fs.readFile (wtfCharacterPath root srcT ++ [n]) := by
      refine htw1.readFile_outside _ (hdisj2 _ ?_)
      simp only [wtfCharacterPath, List.append_assoc]
      exact isPrefixOf_append_self _ _
    have hvv : v' = v := by
      rw [hsrc, hsv1] at hsv2
      injection hsv2 with hh
      exact hh.symm
    subst hvv
    have hb4 : b4.readFile (wtfCharacterPath root dstT ++ [n]) = some v' := by
      rw [cB4.2 _ (fun m _ => by
          simp only [wtfCharacterPath, List.append_assoc]
          exact append_suffix_ne_of_length (by simp)),
        cB3.2 _ (fun m _ => by
          simp only [wtfCharacterPath, List.append_assoc]
          exact append_suffix_ne_of_length (by simp))]
      exact hgv2
    refine hfinish v' ha4 hb4 ?_ ?_
    · simp only [wtfCharacterPath, List.append_assoc]
      exact append_suffix_ne_of_length (by simp)
    · intro he
      have := append_singleton_inj he
      revert hn
      rw [this]
      decide
  by_cases hg3 : ∃ n, n ∈ (entsA.map (fun e => e.name)).filter matchesLua ∧
      q = wtfAccountPath root dstT ++ [savedVariablesName] ++ [n]
  · obtain ⟨n, hn, rfl⟩ := hg3
    obtain ⟨v, hsv1, hgv1⟩ := cA3.1 n hn
    rw [cA2.2 _ (fun m _ => by
        simp only [wtfCharacterPath, List.append_assoc]
        exact ne_extend hneS hlenS),
      cA1.2 _ (fun m _ => by
        simp only [List.append_assoc]
        exact ne_extend hneS hlenS)] at hsv1
    have ha4 : a4.readFile (wtfAccountPath root dstT ++ [savedVariablesName] ++ [n]) =
        some v := by
      rw [cA4.2 _ (fun m _ => by
        simp only [wtfCharacterPath, List.append_assoc]
        exact append_suffix_ne_of_length (by simp))]
      exact hgv1
    obtain ⟨v', hsv2, hgv2⟩ := cB3.1 n hn
    rw [cB2.2 _ (fun m _ => by
        simp only [wtfCharacterPath, List.append_assoc]
        exact ne_extend hneS hlenS),
      cB1.2 _ (fun m _ => by
        simp only [List.append_assoc]
        exact ne_extend hneS hlenS)] at hsv2
    have hsrc : fs1.readFile (wtfAccountPath root srcT ++ [savedVariablesName] ++ [n]) =
        fs.readFile (wtfAccountPath root srcT ++ [savedVariablesName] ++ [n]) := by
      refine htw1.readFile_outside _ (hdisj2 _ ?_)
      simp only [List.append_assoc]
      exact isPrefixOf_append_self _ _
    have hvv : v' = v := by
      rw [hsrc, hsv1] at hsv2
      injection hsv2 with hh
      exact hh.symm
    subst hvv
    have hb4 : b4.readFile (wtfAccountPath root dstT ++ [savedVariablesName] ++ [n]) =
        some v' := by
      rw [cB4.2 _ (fun m _ => by
        simp only [wtfCharacterPath, List.append_assoc]
        exact append_suffix_ne_of_length (by simp))]
      exact hgv2
    refine hfinish v' ha4 hb4 ?_ ?_
    · simp only [List.append_assoc]
      exact append_suffix_ne_of_length (by simp)
    · simp only [wtfCharacterPath, List.append_assoc]
      exact append_suffix_ne_of_length (by simp)
  by_cases hg4 : ∃ n, n ∈ (entsC.map (fun e => e.name)).filter matchesLua ∧
      q = wtfCharacterPath root dstT ++ [savedVariablesName] ++ [n]
  · obtain ⟨n, hn, rfl⟩ := hg4
    obtain ⟨v, hsv1, hgv1⟩ := cA4.1 n hn
    rw [cA3.2 _ (fun m _ => by
        simp only [wtfCharacterPath, List.append_assoc]
        exact ne_extend hneS hlenS),
      cA2.2 _ (fun m _ => by
        simp only [wtfCharacterPath, List.append_assoc]
        exact ne_extend hneS hlenS),
      cA1.2 _ (fun m _ => by
        simp only [wtfCharacterPath, List.append_assoc]
        exact ne_extend hneS hlenS)] at hsv1
    obtain ⟨v', hsv2, hgv2⟩ := cB4.1 n hn
    rw [cB3.2 _ (fun m _ => by
        simp only [wtfCharacterPath, List.append_assoc]
        exact ne_extend hneS hlenS),
      cB2.2 _ (fun m _ => by
        simp only [wtfCharacterPath, List.append_assoc]
        exact ne_extend hneS hlenS),
      cB1.2 _ (fun m _ => by
        simp only [wtfCharacterPath, List.append_assoc]
        exact ne_extend hneS hlenS)] at hsv2
    have hsrc : fs1.readFile (wtfCharacterPath root srcT ++ [savedVariablesName] ++ [n]) =
        fs.readFile (wtfCharacterPath root srcT ++ [savedVariablesName] ++ [n]) := by
      refine htw1.readFile_outside _ (hdisj2 _ ?_)
      simp only [wtfCharacterPath, List.append_assoc]
      exact isPrefixOf_append_self _ _
    have hvv : v' = v := by
      rw [hsrc, hsv1] at hsv2
      injection hsv2 with hh
      exact hh.symm
    subst hvv
    refine hfinish v' hgv1 hgv2 ?_ ?_
    · simp only [wtfCharacterPath, List.append_assoc]
      exact append_suffix_ne_of_length (by simp)
    · simp only [wtfCharacterPath, List.append_assoc]
      exact append_suffix_ne_of_length (by simp)
  -- the path was not written by any copy phase of either run
  have hc1 : ∀ n ∈ accountFilesToCopy, q ≠ wtfAccountPath root dstT ++ [n] :=
    fun n hn he => hg1 ⟨n, hn, he⟩
  have hc2 : ∀ n ∈ characterFilesToCopy, q ≠ wtfCharacterPath root dstT ++ [n] :=
    fun n hn he => hg2 ⟨n, hn, he⟩
  have hc3 : ∀ n ∈ (entsA.map (fun e => e.name)).filter matchesLua,
      q ≠ wtfAccountPath root dstT ++ [savedVariablesName] ++ [n] :=
    fun n hn he => hg3 ⟨n, hn, he⟩
  have hc4 : ∀ n ∈ (entsC.map (fun e => e.name)).filter matchesLua,
      q ≠ wtfCharacterPath root dstT ++ [savedVariablesName] ++ [n] :=
    fun n hn he => hg4 ⟨n, hn, he⟩
  have hb4q : b4.readFile q = fs1.readFile q := by
    rw [cB4.2 q hc4, cB3.2 q hc3, cB2.2 q hc2, cB1.2 q hc1]
  by_cases hlua : hasLuaSuffix q = true
  · have hqA : q ≠ wtfAccountPath root dstT ++ [cacheFileName] := by
      intro he
      rw [he, hasLuaSuffix_append_singleton] at hlua
      exact absurd hlua (by decide)
    have hqC : q ≠ wtfCharacterPath root dstT ++ [cacheFileName] := by
      intro he
      rw [he, hasLuaSuffix_append_singleton] at hlua
      exact absurd hlua (by decide)
    rw [rcB2.2 q hqC, rcB1.2 q hqA]
    by_cases hwB : q ∈ walkList b4 (wtfAccountPath root dstT)
    · rw [sc2.1 q hwB hlua, hb4q]
      rcases hv : fs1.readFile q with _ | d
      · rfl
      · obtain ⟨e, hem, hkey, hval⟩ := readFile_some_mem hv
        have hfx := hfix e hem (by rw [hkey]; exact hdq) (by rw [hkey]; exact hlua)
        rw [hval] at hfx
        simp only [Option.map]
        rw [hfx]
    · rw [sc2.2 q (.inl hwB), hb4q]
  · have hlf : hasLuaSuffix q = false := by simpa using hlua
    by_cases hqA : q = wtfAccountPath root dstT ++ [cacheFileName]
    · subst hqA
      have hqC : wtfAccountPath root dstT ++ [cacheFileName] ≠
          wtfCharacterPath root dstT ++ [cacheFileName] := by
        simp only [wtfCharacterPath, List.append_assoc]
        exact append_suffix_ne_of_length (by simp)
      rw [rcB2.2 _ hqC, rcB1.1, rcA2.2 _ hqC, rcA1.1]
    · by_cases hqC : q = wtfCharacterPath root dstT ++ [cacheFileName]
      · subst hqC
        rw [rcB2.1, rcA2.1]
      · rw [rcB2.2 q hqC, rcB1.2 q hqA, sc2.2 q (.inr hlf), hb4q]

/-- C6 counterexample: the claim states that running the migration twice
with identical source and destination produces the same destination
contents as running it once.  It fails: the effective substitution rewrites
"S - CC" to "S - C", and the replacement text is a proper prefix of the
pattern, so the untouched destination file `Sticky.lua` containing
"S - CCC" is rewritten to "S - CC" by the first run and then again to
"S - C" by the second run.  Both runs complete successfully, yet the second
run changes the destination contents. -/
theorem claim_C6_counterexample :
    migrate fsC6x [] srcTx dstTx = .ok fs1x ∧
    migrate fs1x [] srcTx dstTx = .ok fs2x ∧
    fs1x.readFile stickyFsPath = some ("S - CC".data) ∧
    fs2x.readFile stickyFsPath = some ("S - C".data) ∧
    fs2x.readFile stickyFsPath ≠ fs1x.readFile stickyFsPath :=
  ⟨rfl, rfl, by decide, by decide, by decide⟩

/-- Witness for the amended C6 theorem: on the concrete fixed-point tree
`fsC6w`, every hypothesis holds by computation and the two runs agree. -/
theorem claim_C6_amended_idempotent_witness :
    fs2w.readFile keepFsPath = fs1w.readFile keepFsPath :=
  claim_C6_amended_idempotent fsC6w fs1w fs2w [] srcTw dstTw
    (by decide) rfl (by decide) rfl rfl (by decide) keepFsPath
